import Mathlib

/-!
Shallow embedding of the virtual texture tile manager
(`src/celengine/virtualtex.cpp`): the quadtree tile index, tile addressing,
the catalog scan that populates the index, on-demand residency, and the
configuration factory.  Machine integers are modelled as `Nat`/`Int`
(the program keeps all levels far below any overflow boundary), and the
`float` sub-rectangle arithmetic is modelled over `ℚ` (all values produced
are dyadic rationals with tiny exponents, where IEEE arithmetic is exact).
-/

namespace VirtualTex

/-- One discovered tile record (struct `Tile`): a lazily loaded texture
handle (`tex`, absent until the first successful load) and the sticky
`loadFailed` flag. -/
structure Tile where
  tex : Option Nat
  loadFailed : Bool
deriving DecidableEq

/-- A fresh, empty tile record as created by the catalog scan. -/
def Tile.fresh : Tile := ⟨none, false⟩

/-- One quadtree node (struct `TileQuadtreeNode`): an optional tile payload
and four optional children. -/
inductive TQNode where
  | mk (tile : Option Tile) (c0 c1 c2 c3 : Option TQNode)

/-- A freshly allocated node: no tile, no children. -/
def TQNode.empty : TQNode := .mk none none none none none

def TQNode.tile : TQNode → Option Tile
  | .mk t _ _ _ _ => t

/-- `node->children[i]` (indices ≥ 4 never occur: the selector is 2 bits). -/
def TQNode.child : TQNode → Nat → Option TQNode
  | .mk _ a _ _ _, 0 => a
  | .mk _ _ b _ _, 1 => b
  | .mk _ _ _ c _, 2 => c
  | .mk _ _ _ _ d, 3 => d
  | _, _ => none

def TQNode.setTile : TQNode → Option Tile → TQNode
  | .mk _ a b c d, t => .mk t a b c d

def TQNode.setChild : TQNode → Nat → Option TQNode → TQNode
  | .mk t _ b c d, 0, x => .mk t x b c d
  | .mk t a _ c d, 1, x => .mk t a x c d
  | .mk t a b _ d, 2, x => .mk t a b x d
  | .mk t a b c _, 3, x => .mk t a b c x
  | n, _, _ => n

/-- The 2-bit child selector used by both the descent in `getTile` and by
`addTileToTree`: with `mask = 1 << k` (where `k = lod - n - 1`),
`child = (((v & mask) << 1) | (u & mask)) >> k`. -/
def childIndex (k u v : Nat) : Nat :=
  (((v &&& (1 <<< k)) <<< 1) ||| (u &&& (1 <<< k))) >>> k

/-- Attach `t` at depth `d` below `node`, creating missing intermediate
nodes on the way (the loop of `VirtualTexture::addTileToTree` restricted to
one root).  A tile already attached at the final node is kept and the new
one discarded. -/
def addTile (node : TQNode) (d u v : Nat) (t : Tile) : TQNode :=
  match d with
  | 0 =>
    match node.tile with
    | none => node.setTile (some t)
    | some _ => node
  | k + 1 =>
    let c := childIndex k u v
    let sub := (node.child c).getD TQNode.empty
    node.setChild c (some (addTile sub k u v t))

/-- Follow the existing child chain `d` steps below `node` along the
quadtree path of `(u, v)`; `none` when a child on the path is missing. -/
def descend (node : TQNode) (d u v : Nat) : Option TQNode :=
  match d with
  | 0 => some node
  | k + 1 =>
    match node.child (childIndex k u v) with
    | none => none
    | some sub => descend sub k u v

/-- The tile payload stored at depth `d` below `node` on the path of
`(u, v)` (`none` if the node is missing or carries no tile). -/
def tileAt (node : TQNode) (d u v : Nat) : Option Tile :=
  (descend node d u v).bind TQNode.tile

/-- Replace the tile payload at depth `d` on the path of `(u, v)`; models
the in-place mutation of the matched tile record by `makeResident`. -/
def updateTileAt (node : TQNode) (d u v : Nat) (t : Tile) : TQNode :=
  match d with
  | 0 => node.setTile (some t)
  | k + 1 =>
    match node.child (childIndex k u v) with
    | none => node
    | some sub => node.setChild (childIndex k u v) (some (updateTileAt sub k u v t))

/-- The descent loop inside `VirtualTexture::getTile`: walk down while the
next child exists, remembering the most recent tile seen (`best`) and the
absolute depth it was found at (`bestLOD`).  `done` counts completed steps
and `rem` the remaining ones, so the bit examined at each step is
`rem - 1` — exactly `lod - n - 1` in the source. -/
def findLoop (node : TQNode) (best : Option Tile) (bestLOD done rem u v : Nat) :
    Option Tile × Nat :=
  match rem with
  | 0 => (best, bestLOD)
  | k + 1 =>
    match node.child (childIndex k u v) with
    | none => (best, bestLOD)
    | some sub =>
      match sub.tile with
      | some t => findLoop sub (some t) (done + 1) (done + 1) k u v
      | none => findLoop sub best bestLOD (done + 1) k u v

/-- Decoded image as returned by the external decode collaborator
(`LoadImageFromFile`): dimensions plus the texture handle that the GPU
upload would produce for it. -/
structure ImageData where
  width : Nat
  height : Nat
  texName : Nat
deriving DecidableEq

/-- `isPow2` from virtualtex.cpp: `(x & (x - 1)) == 0`. -/
def isPow2 (x : Nat) : Bool := x &&& (x - 1) == 0

/-- The level directory index in the on-disk load path `root/level<N>/…`
built by `VirtualTexture::loadTileTexture`: the code computes
`lod >>= baseSplit` (a right shift). -/
def loadDirLevel (baseSplit lod : Nat) : Nat := lod >>> baseSplit

/-- `VirtualTexture::loadTileTexture`: shift the level down, ask the decode
collaborator `fsImg` for the image at `(level directory, u, v)`, and accept
it only if both dimensions are powers of two. -/
def loadTileTexture (baseSplit : Nat) (fsImg : Nat → Nat → Nat → Option ImageData)
    (lod u v : Nat) : Option Nat :=
  match fsImg (loadDirLevel baseSplit lod) u v with
  | none => none
  | some img => if isPow2 img.width && isPow2 img.height then some img.texName else none

/-- `VirtualTexture::makeResident`: attempt a load only when the tile is
empty and not sticky-failed; a failed load sets the sticky flag.  Also
reports whether a decode attempt was made. -/
def makeResident (loadResult : Option Nat) (t : Tile) : Tile × Bool :=
  if t.tex = none ∧ t.loadFailed = false then
    match loadResult with
    | some n => ({ t with tex := some n }, true)
    | none => ({ t with loadFailed := true }, true)
  else (t, false)

/-- The descriptor returned by `getTile`.  Modelled from the spec:
`TextureTile` is declared in texture.h, which is not among the given
sources; per the spec it carries an opaque pixel-buffer identity plus the
four normalized sub-rectangle numbers, and the one-argument constructor
(`TextureTile(0)` being the "no texture" sentinel) yields the full
rectangle. -/
structure TextureTile where
  texName : Nat
  texU : ℚ
  texV : ℚ
  texDU : ℚ
  texDV : ℚ
deriving DecidableEq

/-- `TextureTile(n)` — one-argument constructor; `ofName 0` is the empty
sentinel. -/
def TextureTile.ofName (n : Nat) : TextureTile := ⟨n, 0, 0, 1, 1⟩

/-- The manager state touched by the modelled operations. -/
structure VTState where
  baseSplit : Nat
  tileSize : Nat
  nResolutionLevels : Nat
  tileTree0 : TQNode
  tileTree1 : TQNode
  tilesRequested : Nat
  ticks : Nat

/-- `tileTree[idx]` (the validated index is always 0 or 1). -/
def rootNode (s : VTState) (idx : Nat) : TQNode :=
  if idx = 0 then s.tileTree0 else s.tileTree1

def setRootNode (s : VTState) (idx : Nat) (n : TQNode) : VTState :=
  if idx = 0 then { s with tileTree0 := n } else { s with tileTree1 := n }

/-- The sub-rectangle set up at the end of `getTile`:
`texDU = texDV = 1.0f / (1 << lodDiff)`, `texU = (u & ((1 << lodDiff) - 1))
* texDU`, `texV = (v & ((1 << lodDiff) - 1)) * texDV`. -/
def subRect (name un vn lodDiff : Nat) : TextureTile :=
  let texDU : ℚ := 1 / (((1 <<< lodDiff : Nat)) : ℚ)
  ⟨name, (((un &&& ((1 <<< lodDiff) - 1)) : Nat) : ℚ) * texDU,
         (((vn &&& ((1 <<< lodDiff) - 1)) : Nat) : ℚ) * texDU,
         texDU, texDU⟩

/-- The body of `VirtualTexture::getTile` after input validation, on the
absolute level `L` and unsigned coordinates `(un, vn)`: best-match walk,
residency, sub-rectangle. -/
def getTileCore (fsImg : Nat → Nat → Nat → Option ImageData) (s1 : VTState)
    (L un vn : Nat) : TextureTile × Bool × VTState :=
  let idx := un >>> L
  let root := rootNode s1 idx
  let fb := findLoop root root.tile 0 0 L un vn
  match fb.1 with
  | none => (TextureTile.ofName 0, false, s1)
  | some t =>
    let tileLOD := fb.2
    let tileU := un >>> (L - tileLOD)
    let tileV := vn >>> (L - tileLOD)
    let mr := makeResident (loadTileTexture s1.baseSplit fsImg tileLOD tileU tileV) t
    let s2 := setRootNode s1 idx (updateTileAt root tileLOD tileU tileV mr.1)
    match mr.1.tex with
    | none => (TextureTile.ofName 0, mr.2, s2)
    | some name => (subRect name un vn (L - tileLOD), mr.2, s2)

/-- The validation test at the top of `getTile` (after `lod += baseSplit`):
`lod < 0 || lod >= nResolutionLevels || u < 0 || u >= (2 << lod) || v < 0
|| v >= (1 << lod)`. -/
def outOfRange (s : VTState) (lodA u v : Int) : Prop :=
  lodA < 0 ∨ (s.nResolutionLevels : Int) ≤ lodA ∨
    u < 0 ∨ ((2 <<< lodA.toNat : Nat) : Int) ≤ u ∨
    v < 0 ∨ ((1 <<< lodA.toNat : Nat) : Int) ≤ v

instance (s : VTState) (lodA u v : Int) : Decidable (outOfRange s lodA u v) := by
  unfold outOfRange; infer_instance

/-- `VirtualTexture::getTile`.  Returns the descriptor, whether a decode
attempt was made during this call, and the updated manager state. -/
def getTile (fsImg : Nat → Nat → Nat → Option ImageData) (s : VTState)
    (lod u v : Int) : TextureTile × Bool × VTState :=
  let s1 := { s with tilesRequested := s.tilesRequested + 1 }
  let lodA : Int := lod + (s.baseSplit : Int)
  if outOfRange s lodA u v then
    (TextureTile.ofName 0, false, s1)
  else
    getTileCore fsImg s1 lodA.toNat u.toNat v.toNat

/-- `getLODCount`: `nResolutionLevels - baseSplit` (unsigned subtraction
returned through type `int`; for the magnitudes the program produces this
equals the mathematical difference, modelled in `Int`). -/
def getLODCount (s : VTState) : Int :=
  (s.nResolutionLevels : Int) - (s.baseSplit : Int)

/-- `VirtualTexture::addTileToTree`: select the root by `u >> lod`, then
attach at depth `lod` below it. -/
def addTileToTree (s : VTState) (t : Tile) (lod u v : Nat) : VTState :=
  setRootNode s (u >>> lod) (addTile (rootNode s (u >>> lod)) lod u v t)

/-- Literal-match a pattern fragment (the configured filename prefix)
against the head of `name`; returns the unconsumed rest on success.
Models `sscanf`'s handling of ordinary characters in the format string. -/
def matchLit : List Char → List Char → Option (List Char)
  | [], rest => some rest
  | _ :: _, [] => none
  | p :: ps, c :: cs => if p = c then matchLit ps cs else none

/-- Value of a decimal digit run. -/
def digitsVal (ds : List Char) : Nat :=
  ds.foldl (fun a c => a * 10 + (c.toNat - 48)) 0

/-- One `%d` conversion: skip whitespace, optional sign, then a nonempty
digit run; returns the value and the unconsumed rest. -/
def scanInt (s : List Char) : Option (Int × List Char) :=
  let s1 := s.dropWhile Char.isWhitespace
  match s1 with
  | '-' :: rest =>
    let ds := rest.takeWhile Char.isDigit
    if ds.isEmpty then none
    else some (-(digitsVal ds : Int), rest.dropWhile Char.isDigit)
  | '+' :: rest =>
    let ds := rest.takeWhile Char.isDigit
    if ds.isEmpty then none
    else some ((digitsVal ds : Int), rest.dropWhile Char.isDigit)
  | _ =>
    let ds := s1.takeWhile Char.isDigit
    if ds.isEmpty then none
    else some ((digitsVal ds : Int), s1.dropWhile Char.isDigit)

/-- `sscanf(filename, pattern, &u, &v) == 2` for the pattern
`<prefix>%d_%d.`: both conversions must succeed (the trailing literal `.`
is only attempted after the second conversion has been assigned, so its
failure cannot reduce the return value below 2).  When the configured
prefix contains `%`, populateTileTree leaves the pattern string empty, and
an empty format assigns nothing. -/
def scanTileName (pfx : List Char) (name : List Char) : Option (Int × Int) :=
  if pfx.contains '%' then none
  else
    match matchLit pfx name with
    | none => none
    | some r1 =>
      match scanInt r1 with
      | none => none
      | some (uVal, r2) =>
        match r2 with
        | '_' :: r3 =>
          match scanInt r3 with
          | none => none
          | some (vVal, _) => some (uVal, vVal)
        | _ => none

/-- Directory collaborator for the catalog scan: which `level<i>`
directories exist and the filenames each contains. -/
structure DirFS where
  hasDir : Nat → Bool
  files : Nat → List (List Char)

/-- Body of the scan for one existing `level<i>` directory: insert a fresh
tile for every filename that parses to coordinates inside the level's
bounds (`uLimit = 2 << maxLevel`, `vLimit = 1 << maxLevel`). -/
def scanEntry (s : VTState) (pfx : List Char) (name : List Char) (maxLevel : Nat) : VTState :=
  match scanTileName pfx name with
  | none => s
  | some (uVal, vVal) =>
    if 0 ≤ uVal ∧ 0 ≤ vVal ∧ uVal < ((2 <<< maxLevel : Nat) : Int) ∧
        vVal < ((1 <<< maxLevel : Nat) : Int) then
      addTileToTree s Tile.fresh maxLevel uVal.toNat vVal.toNat
    else s

def scanDir (s : VTState) (pfx : List Char) (names : List (List Char))
    (maxLevel : Nat) : VTState :=
  match names with
  | [] => s
  | name :: rest => scanDir (scanEntry s pfx name maxLevel) pfx rest maxLevel

/-- The scan loop of `populateTileTree` over directories `level0 ..
level(n-1)`: returns the populated state together with the final value of
the running `maxLevel` variable (initially 0, set to `i + baseSplit`
whenever directory `i` exists). -/
def scanLevels (B : Nat) (pfx : List Char) (fs : DirFS) (s : VTState) :
    Nat → VTState × Nat
  | 0 => (s, 0)
  | n + 1 =>
    let p := scanLevels B pfx fs s n
    if fs.hasDir n then (scanDir p.1 pfx (fs.files n) (n + B), n + B)
    else p

/-- `MaxResolutionLevels` from virtualtex.cpp. -/
def MaxResolutionLevels : Nat := 13

/-- `VirtualTexture::populateTileTree`: scan all candidate levels, then set
`nResolutionLevels := maxLevel + 1`. -/
def populateTileTree (pfx : List Char) (fs : DirFS) (s : VTState) : VTState :=
  let p := scanLevels s.baseSplit pfx fs s MaxResolutionLevels
  { p.1 with nResolutionLevels := p.2 + 1 }

/-- The `VirtualTexture` constructor: two fresh roots, zero counters, then
`populateTileTree`. -/
def mkVirtualTexture (B T : Nat) (pfx : List Char) (fs : DirFS) : VTState :=
  populateTileTree pfx fs
    { baseSplit := B, tileSize := T, nResolutionLevels := 0,
      tileTree0 := TQNode.empty, tileTree1 := TQNode.empty,
      tilesRequested := 0, ticks := 0 }

/-- The best-match walk performed by `getTile` on absolute level `L` and
unsigned coordinates `(un, vn)`: root selection by `un >> L`, then the
descent loop seeded with the root's own tile at depth 0. -/
def bestMatch (s : VTState) (L un vn : Nat) : Option Tile × Nat :=
  findLoop (rootNode s (un >>> L)) (rootNode s (un >>> L)).tile 0 0 L un vn

/-- Modelled from the spec: a filename of the literal shape
`<prefix><u>_<v>.<suffix>` — the prefix followed by a nonempty decimal
numeral for `u`, an underscore, a nonempty decimal numeral for `v`, a dot,
and an arbitrary suffix.  Used to compare the scanner's actual acceptance
against the spec's description of it. -/
def specShapeName (pfx name : List Char) (uN vN : Nat) : Prop :=
  ∃ uds vds sfx, uds ≠ [] ∧ vds ≠ [] ∧ (∀ c ∈ uds, c.isDigit) ∧ (∀ c ∈ vds, c.isDigit) ∧
    name = pfx ++ uds ++ '_' :: (vds ++ '.' :: sfx) ∧ digitsVal uds = uN ∧ digitsVal vds = vN

/-- The configuration record consumed by the factory (`Hash` parameter
lookups; values of number type are doubles, modelled as rationals). -/
structure TexParams where
  imageDirectory : Option String
  baseSplitVal : Option ℚ
  tileSizeVal : Option ℚ
  tileTypeVal : Option String
  tilePfxVal : Option String

/-- The constructor arguments produced by a successful factory run. -/
structure VTConfig where
  directory : String
  baseSplit : Nat
  tileSize : Nat
  tilePfx : String
  tileType : String
deriving DecidableEq

/-- `CreateVirtualTexture`: validate the configuration and produce the
constructor arguments, or null on any failed check.  `isRel` and `joinPath`
model the filesystem-path collaborators used for the relative-directory
handling. -/
def createVirtualTexture (p : TexParams) (path : String)
    (isRel : String → Bool) (joinPath : String → String → String) : Option VTConfig :=
  match p.imageDirectory with
  | none => none
  | some dir =>
    match p.baseSplitVal with
    | none => none
    | some bs =>
      if bs < 0 ∨ bs ≠ (bs.floor : ℚ) then none
      else
        match p.tileSizeVal with
        | none => none
        | some ts =>
          if ts ≠ (ts.floor : ℚ) ∨ ts < 64 ∨ ¬ (isPow2 ts.floor.toNat = true) then none
          else
            some ⟨(if isRel dir then joinPath path dir else dir),
                  bs.floor.toNat, ts.floor.toNat,
                  p.tilePfxVal.getD "tx_", p.tileTypeVal.getD "dds"⟩

/-- Concrete inputs used to evaluate the model at specific points. -/
def pfxTx : List Char := ['t', 'x', '_']

def fsNone : Nat → Nat → Nat → Option ImageData := fun _ _ _ => none

def tileR7 : Tile := ⟨some 7, false⟩

def tileR9 : Tile := ⟨some 9, false⟩

/-- A manager state whose east root already carries a resident tile. -/
def stA : VTState :=
  ⟨0, 128, 2, TQNode.empty, TQNode.mk (some tileR7) none none none none, 0, 0⟩

/-- A manager state with two empty roots and two resolution levels. -/
def stEmpty2 : VTState := ⟨0, 128, 2, TQNode.empty, TQNode.empty, 0, 0⟩

/-- Level directories 0, 1 and 2 exist and are empty. -/
def dirs012 : DirFS := ⟨fun i => decide (i < 3), fun _ => []⟩

/-- Only `level1` exists, holding `tx_0_0.dds`. -/
def dirOne00 : DirFS :=
  ⟨fun i => decide (i = 1), fun i => if i = 1 then ["tx_0_0.dds".toList] else []⟩

/-- Only `level0` exists, holding `tx_0_0.dds`. -/
def dirZero00 : DirFS :=
  ⟨fun i => decide (i = 0), fun i => if i = 0 then ["tx_0_0.dds".toList] else []⟩

/-- Only `level0` exists, holding the extension-less filename `tx_1_0`. -/
def dirZeroNoDot : DirFS :=
  ⟨fun i => decide (i = 0), fun i => if i = 0 then ["tx_1_0".toList] else []⟩

theorem childIndex_eq (k u v : Nat) :
    childIndex k u v = 2 * (v.testBit k).toNat + (u.testBit k).toNat := by
  unfold childIndex
  have h1 : (1 : Nat) <<< k = 2 ^ k := by rw [Nat.shiftLeft_eq, one_mul]
  rw [h1, Nat.and_two_pow, Nat.and_two_pow, Nat.shiftLeft_eq, Nat.shiftRight_eq_div_pow]
  have hb : (u.testBit k).toNat ≤ 1 := Bool.toNat_le _
  have hpow : (2 : Nat) ^ (k + 1) = 2 ^ k * 2 := pow_succ 2 k
  have hpos : 0 < (2 : Nat) ^ k := Nat.pow_pos (by norm_num)
  have key : (v.testBit k).toNat * 2 ^ k * 2 ^ 1 ||| (u.testBit k).toNat * 2 ^ k
      = 2 ^ (k + 1) * ((v.testBit k).toNat) + (u.testBit k).toNat * 2 ^ k := by
    have e1 : (v.testBit k).toNat * 2 ^ k * 2 ^ 1 = 2 ^ (k + 1) * (v.testBit k).toNat := by
      rw [hpow]; ring
    have hlt : (u.testBit k).toNat * 2 ^ k < 2 ^ (k + 1) := by
      have : (u.testBit k).toNat * 2 ^ k ≤ 1 * 2 ^ k := Nat.mul_le_mul_right _ hb
      omega
    rw [e1, ← Nat.mul_add_lt_is_or hlt]
  rw [key]
  have expand : 2 ^ (k + 1) * ((v.testBit k).toNat) + (u.testBit k).toNat * 2 ^ k
      = 2 ^ k * (2 * (v.testBit k).toNat + (u.testBit k).toNat) := by
    rw [hpow]; ring
  rw [expand, Nat.mul_div_cancel_left _ hpos]

theorem childIndex_lt (k u v : Nat) : childIndex k u v < 4 := by
  rw [childIndex_eq]
  have h1 : (v.testBit k).toNat ≤ 1 := Bool.toNat_le _
  have h2 : (u.testBit k).toNat ≤ 1 := Bool.toNat_le _
  omega

theorem childIndex_shift (k s u v : Nat) :
    childIndex k (u >>> s) (v >>> s) = childIndex (k + s) u v := by
  rw [childIndex_eq, childIndex_eq, Nat.testBit_shiftRight, Nat.testBit_shiftRight,
    Nat.add_comm s k]

theorem childIndex_inj (k u v u' v' : Nat)
    (h : childIndex k u' v' = childIndex k u v) :
    u'.testBit k = u.testBit k ∧ v'.testBit k = v.testBit k := by
  rw [childIndex_eq, childIndex_eq] at h
  have h1 : (v.testBit k).toNat ≤ 1 := Bool.toNat_le _
  have h2 : (u.testBit k).toNat ≤ 1 := Bool.toNat_le _
  have h3 : (v'.testBit k).toNat ≤ 1 := Bool.toNat_le _
  have h4 : (u'.testBit k).toNat ≤ 1 := Bool.toNat_le _
  constructor
  · have h5 : (u'.testBit k).toNat = (u.testBit k).toNat := by omega
    revert h5
    cases u'.testBit k <;> cases u.testBit k <;> simp
  · have h5 : (v'.testBit k).toNat = (v.testBit k).toNat := by omega
    revert h5
    cases v'.testBit k <;> cases v.testBit k <;> simp

theorem tile_setTile (n : TQNode) (t : Option Tile) : (n.setTile t).tile = t := by
  cases n; rfl

theorem child_setTile (n : TQNode) (t : Option Tile) (c : Nat) :
    (n.setTile t).child c = n.child c := by
  cases n; rcases c with _ | _ | _ | _ | c <;> rfl

theorem tile_setChild (n : TQNode) (c : Nat) (x : Option TQNode) :
    (n.setChild c x).tile = n.tile := by
  cases n; rcases c with _ | _ | _ | _ | c <;> rfl

theorem child_setChild_same (n : TQNode) (c : Nat) (hc : c < 4) (x : Option TQNode) :
    (n.setChild c x).child c = x := by
  cases n; rcases c with _ | _ | _ | _ | c <;> first | rfl | omega

theorem child_setChild_other (n : TQNode) (c c' : Nat) (h : c' ≠ c) (x : Option TQNode) :
    (n.setChild c x).child c' = n.child c' := by
  cases n
  rcases c with _ | _ | _ | _ | c <;> rcases c' with _ | _ | _ | _ | c' <;>
    first | rfl | omega

theorem tile_empty : TQNode.empty.tile = none := rfl

theorem child_empty (c : Nat) : TQNode.empty.child c = none := by
  rcases c with _ | _ | _ | _ | c <;> rfl

theorem tileAt_empty (e u v : Nat) : tileAt TQNode.empty e u v = none := by
  cases e with
  | zero => rfl
  | succ f => simp [tileAt, descend, child_empty]

/-- The tile stored at depth `p` on the conceptual root-to-target path of a
request at `(rem, u, v)`: the ancestor address is
`(p, u >> (rem - p), v >> (rem - p))`. -/
def pathTile (node : TQNode) (rem u v p : Nat) : Option Tile :=
  tileAt node p (u >>> (rem - p)) (v >>> (rem - p))

theorem pathTile_zero (node : TQNode) (rem u v : Nat) :
    pathTile node rem u v 0 = node.tile := rfl

theorem pathTile_succ_none (node : TQNode) (k u v q : Nat) (hq : q ≤ k)
    (hc : node.child (childIndex k u v) = none) :
    pathTile node (k + 1) u v (q + 1) = none := by
  have hshift : childIndex q (u >>> (k - q)) (v >>> (k - q)) = childIndex k u v := by
    rw [childIndex_shift]; congr 1; omega
  simp only [pathTile, tileAt, descend]
  have : k + 1 - (q + 1) = k - q := by omega
  rw [this, hshift, hc]
  rfl

theorem pathTile_succ_some (node sub : TQNode) (k u v q : Nat) (hq : q ≤ k)
    (hc : node.child (childIndex k u v) = some sub) :
    pathTile node (k + 1) u v (q + 1) = pathTile sub k u v q := by
  have hshift : childIndex q (u >>> (k - q)) (v >>> (k - q)) = childIndex k u v := by
    rw [childIndex_shift]; congr 1; omega
  simp only [pathTile, tileAt, descend]
  have : k + 1 - (q + 1) = k - q := by omega
  rw [this, hshift, hc]

/-- If no tile hangs anywhere below on the request path, the descent loop
returns the best match it was already carrying. -/
theorem findLoop_skip (u v : Nat) : ∀ (rem : Nat) (node : TQNode)
    (best : Option Tile) (bestLOD done : Nat),
    (∀ p, 1 ≤ p → p ≤ rem → pathTile node rem u v p = none) →
    findLoop node best bestLOD done rem u v = (best, bestLOD) := by
  intro rem
  induction rem with
  | zero => intro node best bestLOD done _; rfl
  | succ k ih =>
    intro node best bestLOD done h
    rw [findLoop]
    cases hc : node.child (childIndex k u v) with
    | none => rfl
    | some sub =>
      have h1 : sub.tile = none := by
        have := h 1 (by omega) (by omega)
        rwa [pathTile_succ_some node sub k u v 0 (by omega) hc, pathTile_zero] at this
      simp only [h1]
      exact ih sub best bestLOD (done + 1) (fun p hp1 hpk => by
        have := h (p + 1) (by omega) (by omega)
        rwa [pathTile_succ_some node sub k u v p (by omega) hc] at this)

/-- If the deepest tile on the request path below `node` hangs at depth
`d ≥ 1`, the descent loop returns it together with `done + d`. -/
theorem findLoop_deepest (u v : Nat) : ∀ (rem : Nat) (node : TQNode)
    (best : Option Tile) (bestLOD done d : Nat) (t : Tile),
    1 ≤ d → d ≤ rem →
    pathTile node rem u v d = some t →
    (∀ p, d < p → p ≤ rem → pathTile node rem u v p = none) →
    findLoop node best bestLOD done rem u v = (some t, done + d) := by
  intro rem
  induction rem with
  | zero => intro node best bestLOD done d t h1 h2 _ _; omega
  | succ k ih =>
    intro node best bestLOD done d t hd1 hdr ht habove
    obtain ⟨q, rfl⟩ : ∃ q, d = q + 1 := ⟨d - 1, by omega⟩
    cases hc : node.child (childIndex k u v) with
    | none =>
      rw [pathTile_succ_none node k u v q (by omega) hc] at ht
      exact absurd ht (by simp)
    | some sub =>
      rw [findLoop]
      simp only [hc]
      cases hq : q with
      | zero =>
        subst hq
        have hsub : sub.tile = some t := by
          have := ht
          rwa [pathTile_succ_some node sub k u v 0 (by omega) hc, pathTile_zero] at this
        simp only [hsub]
        have := findLoop_skip u v k sub (some t) (done + 1) (done + 1) (fun p hp1 hpk => by
          have := habove (p + 1) (by omega) (by omega)
          rwa [pathTile_succ_some node sub k u v p (by omega) hc] at this)
        rw [this]
      | succ q' =>
        subst hq
        have ht' : pathTile sub k u v (q' + 1) = some t := by
          have := ht
          rwa [pathTile_succ_some node sub k u v (q' + 1) (by omega) hc] at this
        have habove' : ∀ p, q' + 1 < p → p ≤ k → pathTile sub k u v p = none := by
          intro p hp1 hpk
          have := habove (p + 1) (by omega) (by omega)
          rwa [pathTile_succ_some node sub k u v p (by omega) hc] at this
        have step : ∀ b' bl', findLoop sub b' bl' (done + 1) k u v
            = (some t, done + (q' + 1 + 1)) := by
          intro b' bl'
          have := ih sub b' bl' (done + 1) (q' + 1) t (by omega) (by omega) ht' habove'
          rw [this]
          congr 1
          omega
        cases hst : sub.tile with
        | none => simp only [hst]; exact step best bestLOD
        | some t0 => simp only [hst]; exact step (some t0) (done + 1)

/-- Converse characterization of the descent loop: the result is either the
carried best match, or the tile at some path position `p`; and every path
position strictly deeper than the returned depth carries no tile. -/
theorem findLoop_spec (u v : Nat) : ∀ (rem : Nat) (node : TQNode)
    (best : Option Tile) (bestLOD done : Nat) (b' : Option Tile) (d' : Nat),
    bestLOD ≤ done →
    findLoop node best bestLOD done rem u v = (b', d') →
    ((b' = best ∧ d' = bestLOD) ∨
      ∃ p t, 1 ≤ p ∧ p ≤ rem ∧ pathTile node rem u v p = some t ∧
        b' = some t ∧ d' = done + p) ∧
    (∀ p, 1 ≤ p → p ≤ rem → d' < done + p → pathTile node rem u v p = none) := by
  intro rem
  induction rem with
  | zero =>
    intro node best bestLOD done b' d' _ h
    rw [findLoop] at h
    refine ⟨Or.inl ⟨congrArg Prod.fst h.symm, congrArg Prod.snd h.symm⟩, ?_⟩
    intro p hp1 hp0
    omega
  | succ k ih =>
    intro node best bestLOD done b' d' hbd h
    rw [findLoop] at h
    cases hc : node.child (childIndex k u v) with
    | none =>
      rw [hc] at h
      have hb : b' = best ∧ d' = bestLOD :=
        ⟨congrArg Prod.fst h.symm, congrArg Prod.snd h.symm⟩
      refine ⟨Or.inl hb, ?_⟩
      intro p hp1 hpk _
      obtain ⟨q, rfl⟩ : ∃ q, p = q + 1 := ⟨p - 1, by omega⟩
      exact pathTile_succ_none node k u v q (by omega) hc
    | some sub =>
      rw [hc] at h
      cases hst : sub.tile with
      | some t0 =>
        simp only [hst] at h
        obtain ⟨hmem, habove⟩ := ih sub (some t0) (done + 1) (done + 1) b' d' (by omega) h
        constructor
        · cases hmem with
          | inl heq =>
            refine Or.inr ⟨1, t0, by omega, by omega, ?_, heq.1, by omega⟩
            rw [pathTile_succ_some node sub k u v 0 (by omega) hc, pathTile_zero, hst]
          | inr hex =>
            obtain ⟨p, t, hp1, hpk, hpt, hb, hd⟩ := hex
            refine Or.inr ⟨p + 1, t, by omega, by omega, ?_, hb, by omega⟩
            rwa [pathTile_succ_some node sub k u v p (by omega) hc]
        · intro p hp1 hpk hda
          obtain ⟨q, rfl⟩ : ∃ q, p = q + 1 := ⟨p - 1, by omega⟩
          have hd'big : done + 1 ≤ d' := by
            cases hmem with
            | inl heq => omega
            | inr hex => obtain ⟨p', t', hp1', _, _, _, hd''⟩ := hex; omega
          cases hq : q with
          | zero => omega
          | succ q' =>
            subst hq
            rw [pathTile_succ_some node sub k u v (q' + 1) (by omega) hc]
            exact habove (q' + 1) (by omega) (by omega) (by omega)
      | none =>
        simp only [hst] at h
        obtain ⟨hmem, habove⟩ := ih sub best bestLOD (done + 1) b' d' (by omega) h
        constructor
        · cases hmem with
          | inl heq => exact Or.inl heq
          | inr hex =>
            obtain ⟨p, t, hp1, hpk, hpt, hb, hd⟩ := hex
            refine Or.inr ⟨p + 1, t, by omega, by omega, ?_, hb, by omega⟩
            rwa [pathTile_succ_some node sub k u v p (by omega) hc]
        · intro p hp1 hpk hda
          obtain ⟨q, rfl⟩ : ∃ q, p = q + 1 := ⟨p - 1, by omega⟩
          cases hq : q with
          | zero =>
            subst hq
            rw [pathTile_succ_some node sub k u v 0 (by omega) hc, pathTile_zero]
            exact hst
          | succ q' =>
            subst hq
            rw [pathTile_succ_some node sub k u v (q' + 1) (by omega) hc]
            exact habove (q' + 1) (by omega) (by omega) (by omega)

theorem tileAt_zero (node : TQNode) (u v : Nat) : tileAt node 0 u v = node.tile := rfl

theorem tileAt_succ (node : TQNode) (k u v : Nat) :
    tileAt node (k + 1) u v =
      match node.child (childIndex k u v) with
      | none => none
      | some sub => tileAt sub k u v := by
  simp only [tileAt, descend]
  cases node.child (childIndex k u v) <;> rfl

/-- Inserting at `(d, u, v)` leaves the tile stored there: the old one if
the address was already occupied, else the inserted one. -/
theorem tileAt_addTile_self : ∀ (d : Nat) (node : TQNode) (u v : Nat) (t : Tile),
    tileAt (addTile node d u v t) d u v = some ((tileAt node d u v).getD t) := by
  intro d
  induction d with
  | zero =>
    intro node u v t
    rw [addTile]
    cases h : node.tile with
    | none => simp only [h, tileAt_zero, tile_setTile, Option.getD_none]
    | some t0 => simp only [h, tileAt_zero, Option.getD_some]
  | succ k ih =>
    intro node u v t
    rw [addTile]
    rw [tileAt_succ, child_setChild_same _ _ (childIndex_lt k u v)]
    rw [tileAt_succ node]
    cases hc : node.child (childIndex k u v) with
    | none => simp only [hc, Option.getD_none, ih, tileAt_empty, Option.getD_none]
    | some sub0 => simp only [hc, Option.getD_some, ih]

/-- Inserting at `(d, u, v)` does not disturb the tile stored at any other
address `(e, u', v')` (an address whose path differs at depth or at some
branching step). -/
theorem tileAt_addTile_frame : ∀ (d : Nat) (node : TQNode) (u v : Nat) (t : Tile)
    (e u' v' : Nat),
    (e ≠ d ∨ ∃ i, i < d ∧ i < e ∧ childIndex i u' v' ≠ childIndex i u v) →
    tileAt (addTile node d u v t) e u' v' = tileAt node e u' v' := by
  intro d
  induction d with
  | zero =>
    intro node u v t e u' v' h
    have he : e ≠ 0 := by
      cases h with
      | inl h => exact h
      | inr h => obtain ⟨i, hi, _, _⟩ := h; omega
    obtain ⟨f, rfl⟩ : ∃ f, e = f + 1 := ⟨e - 1, by omega⟩
    rw [addTile]
    cases ht : node.tile with
    | none =>
      simp only [ht]
      rw [tileAt_succ, tileAt_succ, child_setTile]
    | some t0 => simp only [ht]
  | succ k ih =>
    intro node u v t e u' v' h
    rw [addTile]
    cases e with
    | zero =>
      rw [tileAt_zero, tileAt_zero, tile_setChild]
    | succ f =>
      rw [tileAt_succ, tileAt_succ node]
      by_cases hcc : childIndex f u' v' = childIndex k u v
      · rw [hcc, child_setChild_same _ _ (childIndex_lt k u v)]
        have h' : f ≠ k ∨ ∃ i, i < k ∧ i < f ∧ childIndex i u' v' ≠ childIndex i u v := by
          rcases h with h | ⟨i, hid, hie, hdiff⟩
          · left; omega
          · by_cases hfk : f = k
            · subst hfk
              have hik : i ≠ f := by
                intro hif
                subst hif
                exact hdiff hcc
              right
              exact ⟨i, by omega, by omega, hdiff⟩
            · left; exact hfk
        cases hc : node.child (childIndex k u v) with
        | none =>
          simp only [Option.getD_none]
          rw [ih TQNode.empty u v t f u' v' h', tileAt_empty]
        | some sub0 =>
          simp only [Option.getD_some]
          rw [ih sub0 u v t f u' v' h']
      · rw [child_setChild_other _ _ _ hcc]

/-- Overwriting the tile payload at an occupied address `(d, u, v)`. -/
theorem tileAt_updateTileAt_self : ∀ (d : Nat) (node n : TQNode) (u v : Nat) (t' : Tile),
    descend node d u v = some n →
    tileAt (updateTileAt node d u v t') d u v = some t' := by
  intro d
  induction d with
  | zero =>
    intro node n u v t' _
    rw [updateTileAt, tileAt_zero, tile_setTile]
  | succ k ih =>
    intro node n u v t' hdes
    rw [updateTileAt]
    rw [descend] at hdes
    cases hc : node.child (childIndex k u v) with
    | none => rw [hc] at hdes; exact absurd hdes (by simp)
    | some sub =>
      rw [hc] at hdes
      simp only [hc]
      rw [tileAt_succ, child_setChild_same _ _ (childIndex_lt k u v)]
      exact ih sub n u v t' hdes

/-- Overwriting the tile payload at `(d, u, v)` does not disturb the tile
stored at any other address. -/
theorem tileAt_updateTileAt_frame : ∀ (d : Nat) (node : TQNode) (u v : Nat) (t' : Tile)
    (e u' v' : Nat),
    (e ≠ d ∨ ∃ i, i < d ∧ i < e ∧ childIndex i u' v' ≠ childIndex i u v) →
    tileAt (updateTileAt node d u v t') e u' v' = tileAt node e u' v' := by
  intro d
  induction d with
  | zero =>
    intro node u v t' e u' v' h
    have he : e ≠ 0 := by
      cases h with
      | inl h => exact h
      | inr h => obtain ⟨i, hi, _, _⟩ := h; omega
    obtain ⟨f, rfl⟩ : ∃ f, e = f + 1 := ⟨e - 1, by omega⟩
    rw [updateTileAt]
    rw [tileAt_succ, tileAt_succ, child_setTile]
  | succ k ih =>
    intro node u v t' e u' v' h
    rw [updateTileAt]
    cases hc : node.child (childIndex k u v) with
    | none => rfl
    | some sub =>
      simp only []
      cases e with
      | zero =>
        rw [tileAt_zero, tileAt_zero, tile_setChild]
      | succ f =>
        rw [tileAt_succ, tileAt_succ node]
        by_cases hcc : childIndex f u' v' = childIndex k u v
        · rw [hcc, child_setChild_same _ _ (childIndex_lt k u v), hc]
          simp only []
          have h' : f ≠ k ∨ ∃ i, i < k ∧ i < f ∧ childIndex i u' v' ≠ childIndex i u v := by
            rcases h with h | ⟨i, hid, hie, hdiff⟩
            · left; omega
            · by_cases hfk : f = k
              · subst hfk
                have hik : i ≠ f := by
                  intro hif
                  subst hif
                  exact hdiff hcc
                right
                exact ⟨i, by omega, by omega, hdiff⟩
              · left; exact hfk
          exact ih sub u v t' f u' v' h'
        · rw [child_setChild_other _ _ _ hcc]

theorem rootNode_setRootNode_same (s : VTState) (idx : Nat) (n : TQNode) :
    rootNode (setRootNode s idx n) idx = n := by
  unfold rootNode setRootNode
  by_cases h : idx = 0 <;> simp [h]

theorem rootNode_setRootNode_other (s : VTState) (idx idx2 : Nat) (n : TQNode)
    (h : idx2 ≠ idx) (hi : idx ≤ 1) (hi2 : idx2 ≤ 1) :
    rootNode (setRootNode s idx n) idx2 = rootNode s idx2 := by
  unfold rootNode setRootNode
  by_cases h0 : idx = 0 <;> by_cases h2 : idx2 = 0 <;> simp [h0, h2] <;> omega

theorem setRootNode_baseSplit (s : VTState) (idx : Nat) (n : TQNode) :
    (setRootNode s idx n).baseSplit = s.baseSplit := by
  unfold setRootNode; split <;> rfl

theorem setRootNode_nResolutionLevels (s : VTState) (idx : Nat) (n : TQNode) :
    (setRootNode s idx n).nResolutionLevels = s.nResolutionLevels := by
  unfold setRootNode; split <;> rfl

theorem setRootNode_tilesRequested (s : VTState) (idx : Nat) (n : TQNode) :
    (setRootNode s idx n).tilesRequested = s.tilesRequested := by
  unfold setRootNode; split <;> rfl

/-- After any `makeResident` call the tile is settled: it carries a texture
or the sticky failure flag. -/
theorem makeResident_settled (load : Option Nat) (t : Tile) :
    ¬((makeResident load t).1.tex = none ∧ (makeResident load t).1.loadFailed = false) := by
  unfold makeResident
  by_cases h : t.tex = none ∧ t.loadFailed = false
  · rw [if_pos h]
    cases load <;> simp
  · rw [if_neg h]
    exact h

/-- A settled tile (already loaded, or sticky-failed) is returned unchanged
with no decode attempt. -/
theorem makeResident_of_settled (load : Option Nat) (t : Tile)
    (h : ¬(t.tex = none ∧ t.loadFailed = false)) :
    makeResident load t = (t, false) := by
  unfold makeResident
  rw [if_neg h]

/-- The result of the descent loop pins down the deepest tile on the path;
re-walking after overwriting that tile's payload returns the new payload at
the same depth. -/
theorem findLoop_update (root : TQNode) (L u v d : Nat) (t t' : Tile)
    (hfb : findLoop root root.tile 0 0 L u v = (some t, d)) :
    d ≤ L ∧ pathTile root L u v d = some t ∧
      findLoop (updateTileAt root d (u >>> (L - d)) (v >>> (L - d)) t')
        (updateTileAt root d (u >>> (L - d)) (v >>> (L - d)) t').tile 0 0 L u v
        = (some t', d) := by
  obtain ⟨hmem, habove⟩ := findLoop_spec u v L root root.tile 0 0 (some t) d (le_refl 0) hfb
  have hbase : d ≤ L ∧ pathTile root L u v d = some t := by
    cases hmem with
    | inl h =>
      refine ⟨by omega, ?_⟩
      rw [h.2, pathTile_zero, h.1]
    | inr h =>
      obtain ⟨p, t2, hp1, hpL, hpt, hbt, hdp⟩ := h
      have : t2 = t := by injection hbt.symm
      subst this
      have : d = p := by omega
      subst this
      exact ⟨hpL, hpt⟩
  obtain ⟨hdL, hpt⟩ := hbase
  have hdes : ∃ n, descend root d (u >>> (L - d)) (v >>> (L - d)) = some n := by
    have := hpt
    unfold pathTile tileAt at this
    cases hd : descend root d (u >>> (L - d)) (v >>> (L - d)) with
    | none => rw [hd] at this; exact absurd this (by simp)
    | some n => exact ⟨n, rfl⟩
  obtain ⟨n0, hn0⟩ := hdes
  have hself : pathTile (updateTileAt root d (u >>> (L - d)) (v >>> (L - d)) t') L u v d
      = some t' := by
    unfold pathTile
    exact tileAt_updateTileAt_self d root n0 (u >>> (L - d)) (v >>> (L - d)) t' hn0
  have hframe : ∀ p, p ≠ d →
      pathTile (updateTileAt root d (u >>> (L - d)) (v >>> (L - d)) t') L u v p
        = pathTile root L u v p := by
    intro p hp
    unfold pathTile
    exact tileAt_updateTileAt_frame d root (u >>> (L - d)) (v >>> (L - d)) t' p
      (u >>> (L - p)) (v >>> (L - p)) (Or.inl hp)
  refine ⟨hdL, hpt, ?_⟩
  cases hd0 : d with
  | zero =>
    subst hd0
    have hskip : ∀ p, 1 ≤ p → p ≤ L →
        pathTile (updateTileAt root 0 (u >>> (L - 0)) (v >>> (L - 0)) t') L u v p = none := by
      intro p hp1 hpL2
      rw [hframe p (by omega)]
      exact habove p hp1 hpL2 (by omega)
    have hroot : (updateTileAt root 0 (u >>> (L - 0)) (v >>> (L - 0)) t').tile = some t' := by
      have h2 := hself
      rwa [pathTile_zero] at h2
    rw [findLoop_skip u v L _ _ 0 0 hskip, hroot]
  | succ dm =>
    subst hd0
    have habove2 : ∀ p, dm + 1 < p → p ≤ L →
        pathTile (updateTileAt root (dm + 1) (u >>> (L - (dm + 1))) (v >>> (L - (dm + 1))) t')
          L u v p = none := by
      intro p hpd hpL2
      rw [hframe p (by omega)]
      exact habove p (by omega) hpL2 (by omega)
    have h3 := findLoop_deepest u v L
      (updateTileAt root (dm + 1) (u >>> (L - (dm + 1))) (v >>> (L - (dm + 1))) t')
      (updateTileAt root (dm + 1) (u >>> (L - (dm + 1))) (v >>> (L - (dm + 1))) t').tile
      0 0 (dm + 1) t' (by omega) hdL hself habove2
    rw [h3]
    simp

/-- Unfolding `getTileCore` once the best-match walk's result is known. -/
theorem getTileCore_of_found (fsImg : Nat → Nat → Nat → Option ImageData)
    (s1 : VTState) (L un vn d : Nat) (t : Tile)
    (hfb : bestMatch s1 L un vn = (some t, d)) :
    getTileCore fsImg s1 L un vn =
      ((match (makeResident (loadTileTexture s1.baseSplit fsImg d (un >>> (L - d))
            (vn >>> (L - d))) t).1.tex with
        | none => TextureTile.ofName 0
        | some name => subRect name un vn (L - d)),
       (makeResident (loadTileTexture s1.baseSplit fsImg d (un >>> (L - d))
          (vn >>> (L - d))) t).2,
       setRootNode s1 (un >>> L)
         (updateTileAt (rootNode s1 (un >>> L)) d (un >>> (L - d)) (vn >>> (L - d))
           (makeResident (loadTileTexture s1.baseSplit fsImg d (un >>> (L - d))
             (vn >>> (L - d))) t).1)) := by
  unfold bestMatch at hfb
  unfold getTileCore
  simp only [hfb]
  cases htex : (makeResident (loadTileTexture s1.baseSplit fsImg d (un >>> (L - d))
      (vn >>> (L - d))) t).1.tex <;> simp only [htex]

/-- Unfolding `getTileCore` when the walk finds nothing. -/
theorem getTileCore_of_none (fsImg : Nat → Nat → Nat → Option ImageData)
    (s1 : VTState) (L un vn : Nat)
    (hfb : (bestMatch s1 L un vn).1 = none) :
    getTileCore fsImg s1 L un vn = (TextureTile.ofName 0, false, s1) := by
  unfold bestMatch at hfb
  unfold getTileCore
  rcases hw : findLoop (rootNode s1 (un >>> L)) (rootNode s1 (un >>> L)).tile 0 0 L un vn
    with ⟨b, dd⟩
  rw [hw] at hfb
  simp only at hfb
  subst hfb
  simp only [hw]

theorem one_shiftLeft_eq (k : Nat) : (1 : Nat) <<< k = 2 ^ k := by
  rw [Nat.shiftLeft_eq, one_mul]

theorem two_shiftLeft_eq (k : Nat) : (2 : Nat) <<< k = 2 ^ (k + 1) := by
  rw [Nat.shiftLeft_eq, pow_succ, mul_comm]

/-- The sub-rectangle in arithmetic form: the bit mask is a modulus. -/
theorem subRect_eq (name un vn k : Nat) :
    subRect name un vn k =
      ⟨name, ((un % 2 ^ k : Nat) : ℚ) * (1 / ((2 ^ k : Nat) : ℚ)),
             ((vn % 2 ^ k : Nat) : ℚ) * (1 / ((2 ^ k : Nat) : ℚ)),
             1 / ((2 ^ k : Nat) : ℚ), 1 / ((2 ^ k : Nat) : ℚ)⟩ := by
  unfold subRect
  rw [one_shiftLeft_eq, Nat.and_pow_two_sub_one_eq_mod, Nat.and_pow_two_sub_one_eq_mod]
  norm_num

theorem subRect_zero (name un vn : Nat) :
    subRect name un vn 0 = ⟨name, 0, 0, 1, 1⟩ := by
  rw [subRect_eq]
  norm_num [Nat.mod_one]

/-- The sub-rectangle always lies inside the unit square, with square
extents `1 / 2 ^ lodDiff`. -/
theorem subRect_bounds (name un vn k : Nat) :
    (subRect name un vn k).texDU = 1 / ((2 ^ k : Nat) : ℚ) ∧
    (subRect name un vn k).texDV = 1 / ((2 ^ k : Nat) : ℚ) ∧
    0 ≤ (subRect name un vn k).texU ∧
    0 ≤ (subRect name un vn k).texV ∧
    (subRect name un vn k).texU + (subRect name un vn k).texDU ≤ 1 ∧
    (subRect name un vn k).texV + (subRect name un vn k).texDV ≤ 1 := by
  rw [subRect_eq]
  have hpos : (0 : ℚ) < ((2 ^ k : Nat) : ℚ) := by
    have : (0 : Nat) < 2 ^ k := Nat.pow_pos (by norm_num)
    exact_mod_cast this
  have hb : ∀ m : Nat, m % 2 ^ k < 2 ^ k := fun m => Nat.mod_lt _ (Nat.pow_pos (by norm_num))
  have key : ∀ m : Nat, ((m % 2 ^ k : Nat) : ℚ) * (1 / ((2 ^ k : Nat) : ℚ))
      + 1 / ((2 ^ k : Nat) : ℚ) ≤ 1 := by
    intro m
    have h1 : ((m % 2 ^ k : Nat) : ℚ) + 1 ≤ ((2 ^ k : Nat) : ℚ) := by
      have := hb m
      have h2 : (m % 2 ^ k : Nat) + 1 ≤ 2 ^ k := this
      exact_mod_cast h2
    have hcollect : ((m % 2 ^ k : Nat) : ℚ) * (1 / ((2 ^ k : Nat) : ℚ))
        + 1 / ((2 ^ k : Nat) : ℚ)
        = (((m % 2 ^ k : Nat) : ℚ) + 1) * (1 / ((2 ^ k : Nat) : ℚ)) := by ring
    rw [hcollect]
    calc (((m % 2 ^ k : Nat) : ℚ) + 1) * (1 / ((2 ^ k : Nat) : ℚ))
        ≤ ((2 ^ k : Nat) : ℚ) * (1 / ((2 ^ k : Nat) : ℚ)) := by
          exact mul_le_mul_of_nonneg_right h1 (by positivity)
      _ = 1 := by
          rw [mul_one_div, div_self (ne_of_gt hpos)]
  refine ⟨rfl, rfl, by positivity, by positivity, key un, key vn⟩

/-- Two numbers with the same bits below `n`, the same bit `n`, and both
below `2 ^ (n + 1)` are equal. -/
theorem eq_of_low_bits (n u u2 : Nat) (hu : u < 2 ^ (n + 1)) (hu2 : u2 < 2 ^ (n + 1))
    (hhigh : u.testBit n = u2.testBit n) (hlow : ∀ i, i < n → u.testBit i = u2.testBit i) :
    u = u2 := by
  apply Nat.eq_of_testBit_eq
  intro j
  rcases lt_trichotomy j n with h | h | h
  · exact hlow j h
  · subst h; exact hhigh
  · have h1 : u.testBit j = false := Nat.testBit_lt_two_pow
      (lt_of_lt_of_le hu (Nat.pow_le_pow_right (by norm_num) (by omega)))
    have h2 : u2.testBit j = false := Nat.testBit_lt_two_pow
      (lt_of_lt_of_le hu2 (Nat.pow_le_pow_right (by norm_num) (by omega)))
    rw [h1, h2]

theorem testBit_eq_of_shiftRight (n u u2 : Nat) (h : u >>> n = u2 >>> n) :
    u.testBit n = u2.testBit n := by
  have h1 : (u >>> n).testBit 0 = (u2 >>> n).testBit 0 := by rw [h]
  rwa [Nat.testBit_shiftRight, Nat.testBit_shiftRight, Nat.add_zero] at h1

/-- Two distinct in-range addresses at the same absolute level and in the
same root half must branch apart at some descent step. -/
theorem childIndex_diff (L u v u2 v2 : Nat)
    (hu : u < 2 <<< L) (hu2 : u2 < 2 <<< L) (hv : v < 1 <<< L) (hv2 : v2 < 1 <<< L)
    (hroot : u2 >>> L = u >>> L) (hne : ¬(u2 = u ∧ v2 = v)) :
    ∃ i, i < L ∧ childIndex i u2 v2 ≠ childIndex i u v := by
  by_contra hcon
  push_neg at hcon
  have hbits : ∀ i, i < L → u2.testBit i = u.testBit i ∧ v2.testBit i = v.testBit i := by
    intro i hi
    exact childIndex_inj i u v u2 v2 (hcon i hi)
  rw [two_shiftLeft_eq] at hu hu2
  rw [one_shiftLeft_eq] at hv hv2
  have hueq : u2 = u := by
    refine eq_of_low_bits L u2 u hu2 hu (testBit_eq_of_shiftRight L u2 u hroot)
      (fun i hi => (hbits i hi).1)
  have hveq : v2 = v := by
    refine eq_of_low_bits L v2 v (lt_of_lt_of_le hv2 (Nat.pow_le_pow_right (by norm_num) (by omega)))
      (lt_of_lt_of_le hv (Nat.pow_le_pow_right (by norm_num) (by omega))) ?_
      (fun i hi => (hbits i hi).2)
    rw [Nat.testBit_lt_two_pow hv2, Nat.testBit_lt_two_pow hv]
  exact hne ⟨hueq, hveq⟩

/-- In-range `u` selects root 0 or 1. -/
theorem rootIdx_le_one (L u : Nat) (hu : u < 2 <<< L) : u >>> L ≤ 1 := by
  rw [two_shiftLeft_eq] at hu
  rw [Nat.shiftRight_eq_div_pow]
  have : u / 2 ^ L < 2 := by
    apply Nat.div_lt_of_lt_mul
    rw [pow_succ] at hu
    exact hu
  omega

theorem rootNode_requested (s : VTState) (x idx : Nat) :
    rootNode { s with tilesRequested := x } idx = rootNode s idx := by
  unfold rootNode
  split <;> rfl

theorem bestMatch_requested (s : VTState) (x L un vn : Nat) :
    bestMatch { s with tilesRequested := x } L un vn = bestMatch s L un vn := by
  unfold bestMatch
  rw [rootNode_requested]

theorem outOfRange_congr (s s2 : VTState) (h : s2.nResolutionLevels = s.nResolutionLevels)
    (lodA u v : Int) : outOfRange s2 lodA u v ↔ outOfRange s lodA u v := by
  unfold outOfRange
  rw [h]

/-- `addTileToTree` stores the tile at its exact address (keeping an
already-present tile). -/
theorem tileAt_addTileToTree_self (s : VTState) (t : Tile) (L u v : Nat) :
    tileAt (rootNode (addTileToTree s t L u v) (u >>> L)) L u v
      = some ((tileAt (rootNode s (u >>> L)) L u v).getD t) := by
  unfold addTileToTree
  rw [rootNode_setRootNode_same]
  exact tileAt_addTile_self L _ u v t

/-- `addTileToTree` leaves every other in-range address untouched. -/
theorem tileAt_addTileToTree_frame (s : VTState) (t : Tile) (L u v e u2 v2 : Nat)
    (hu : u < 2 <<< L) (hv : v < 1 <<< L) (hu2 : u2 < 2 <<< e) (hv2 : v2 < 1 <<< e)
    (hne : ¬(e = L ∧ u2 = u ∧ v2 = v)) :
    tileAt (rootNode (addTileToTree s t L u v) (u2 >>> e)) e u2 v2
      = tileAt (rootNode s (u2 >>> e)) e u2 v2 := by
  unfold addTileToTree
  by_cases hroot : u2 >>> e = u >>> L
  · rw [hroot, rootNode_setRootNode_same]
    apply tileAt_addTile_frame
    by_cases he : e = L
    · subst he
      obtain ⟨i, hi, hdiff⟩ := childIndex_diff e u v u2 v2 hu hu2 hv hv2 hroot
        (fun hc => hne ⟨rfl, hc⟩)
      exact Or.inr ⟨i, hi, hi, hdiff⟩
    · exact Or.inl he
  · rw [rootNode_setRootNode_other _ _ _ _ hroot (rootIdx_le_one L u hu) (rootIdx_le_one e u2 hu2)]

/-- When the exact-address node carries a tile, the walk returns it with
`matchedLevel` equal to the full absolute level. -/
theorem bestMatch_exact (s : VTState) (L un vn : Nat) (t : Tile)
    (ht : tileAt (rootNode s (un >>> L)) L un vn = some t) :
    bestMatch s L un vn = (some t, L) := by
  unfold bestMatch
  cases hL : L with
  | zero =>
    subst hL
    rw [findLoop]
    rw [tileAt_zero] at ht
    rw [ht]
  | succ m =>
    subst hL
    have hpt : pathTile (rootNode s (un >>> (m + 1))) (m + 1) un vn (m + 1) = some t := by
      unfold pathTile
      rw [Nat.sub_self, Nat.shiftRight_zero, Nat.shiftRight_zero]
      exact ht
    have h := findLoop_deepest un vn (m + 1) (rootNode s (un >>> (m + 1)))
      (rootNode s (un >>> (m + 1))).tile 0 0 (m + 1) t (by omega) (le_refl _) hpt
      (fun p hp1 hp2 => by omega)
    rw [h]
    simp

/-- When the deepest tile on the request path hangs at depth `d`, the walk
returns it with `matchedLevel = d`. -/
theorem bestMatch_deepest (s : VTState) (L un vn d : Nat) (t : Tile) (hdL : d ≤ L)
    (ht : pathTile (rootNode s (un >>> L)) L un vn d = some t)
    (habove : ∀ p, d < p → p ≤ L → pathTile (rootNode s (un >>> L)) L un vn p = none) :
    bestMatch s L un vn = (some t, d) := by
  unfold bestMatch
  cases hd : d with
  | zero =>
    subst hd
    rw [pathTile_zero] at ht
    rw [findLoop_skip un vn L _ _ 0 0 (fun p hp1 hp2 => habove p (by omega) hp2), ht]
  | succ m =>
    subst hd
    have h := findLoop_deepest un vn L (rootNode s (un >>> L))
      (rootNode s (un >>> L)).tile 0 0 (m + 1) t (by omega) hdL ht habove
    rw [h]
    simp

theorem getTile_of_range (fsImg : Nat → Nat → Nat → Option ImageData) (s : VTState)
    (lod u v : Int) (h : outOfRange s (lod + (s.baseSplit : Int)) u v) :
    getTile fsImg s lod u v =
      (TextureTile.ofName 0, false, { s with tilesRequested := s.tilesRequested + 1 }) := by
  unfold getTile
  rw [if_pos h]

theorem getTile_in_range (fsImg : Nat → Nat → Nat → Option ImageData) (s : VTState)
    (lod u v : Int) (h : ¬ outOfRange s (lod + (s.baseSplit : Int)) u v) :
    getTile fsImg s lod u v =
      getTileCore fsImg { s with tilesRequested := s.tilesRequested + 1 }
        (lod + (s.baseSplit : Int)).toNat u.toNat v.toNat := by
  unfold getTile
  rw [if_neg h]

theorem not_outOfRange_of (s : VTState) (lod u v : Int)
    (h0 : 0 ≤ lod + (s.baseSplit : Int))
    (hL : lod + (s.baseSplit : Int) < (s.nResolutionLevels : Int))
    (hu0 : 0 ≤ u) (hu : u < ((2 <<< (lod + (s.baseSplit : Int)).toNat : Nat) : Int))
    (hv0 : 0 ≤ v) (hv : v < ((1 <<< (lod + (s.baseSplit : Int)).toNat : Nat) : Int)) :
    ¬ outOfRange s (lod + (s.baseSplit : Int)) u v := by
  unfold outOfRange
  push_neg
  refine ⟨h0, hL, hu0, hu, hv0, hv⟩

/-- C5.  `getTile` is a total function of its integer inputs (it is defined
as a Lean function, so it cannot raise), and whenever the absolute level
`lod + B` or the coordinates are out of range — absolute level negative or
at least `nResolutionLevels`, `u` outside `[0, 2^(lod+B+1))`, or `v`
outside `[0, 2^(lod+B))` — the returned descriptor is the empty "no
texture" sentinel `TextureTile(0)`. -/
theorem C5_out_of_range_sentinel (fsImg : Nat → Nat → Nat → Option ImageData)
    (s : VTState) (lod u v : Int)
    (h : lod + (s.baseSplit : Int) < 0 ∨
      (s.nResolutionLevels : Int) ≤ lod + (s.baseSplit : Int) ∨
      u < 0 ∨ (2 : Int) ^ ((lod + (s.baseSplit : Int)).toNat + 1) ≤ u ∨
      v < 0 ∨ (2 : Int) ^ ((lod + (s.baseSplit : Int)).toNat) ≤ v) :
    (getTile fsImg s lod u v).1 = TextureTile.ofName 0 := by
  have hor : outOfRange s (lod + (s.baseSplit : Int)) u v := by
    unfold outOfRange
    have e1 : ((2 <<< (lod + (s.baseSplit : Int)).toNat : Nat) : Int)
        = 2 ^ ((lod + (s.baseSplit : Int)).toNat + 1) := by
      rw [two_shiftLeft_eq]
      push_cast
      ring
    have e2 : ((1 <<< (lod + (s.baseSplit : Int)).toNat : Nat) : Int)
        = 2 ^ ((lod + (s.baseSplit : Int)).toNat) := by
      rw [one_shiftLeft_eq]
      push_cast
      ring
    rw [e1, e2]
    exact h
  rw [getTile_of_range fsImg s lod u v hor]

/-- Witness for C5 at a concrete out-of-range input. -/
theorem C5_out_of_range_sentinel_witness :
    ((5 : Int) + (((VTState.mk 0 128 1 TQNode.empty TQNode.empty 0 0).baseSplit : Nat) : Int) < 0 ∨
      (((VTState.mk 0 128 1 TQNode.empty TQNode.empty 0 0).nResolutionLevels : Nat) : Int)
        ≤ 5 + (((VTState.mk 0 128 1 TQNode.empty TQNode.empty 0 0).baseSplit : Nat) : Int) ∨
      (0 : Int) < 0 ∨
      (2 : Int) ^ (((5 : Int) + (((VTState.mk 0 128 1 TQNode.empty TQNode.empty 0 0).baseSplit : Nat) : Int)).toNat + 1) ≤ 0 ∨
      (0 : Int) < 0 ∨
      (2 : Int) ^ (((5 : Int) + (((VTState.mk 0 128 1 TQNode.empty TQNode.empty 0 0).baseSplit : Nat) : Int)).toNat) ≤ 0) ∧
    (getTile (fun _ _ _ => none) (VTState.mk 0 128 1 TQNode.empty TQNode.empty 0 0) 5 0 0).1
      = TextureTile.ofName 0 := by
  refine ⟨?_, C5_out_of_range_sentinel (fun _ _ _ => none)
    (VTState.mk 0 128 1 TQNode.empty TQNode.empty 0 0) 5 0 0 ?_⟩ <;>
  · right
    left
    norm_num

/-- C10.  Whenever `getTile` returns a descriptor other than the empty
sentinel, that descriptor is the sub-rectangle for
`lodDiff = (lod + B) - matchedLevel` (with `matchedLevel ≤ lod + B`): its
extents are `texDU = texDV = 1 / 2^lodDiff` and it lies inside the unit
square (`0 ≤ texU`, `0 ≤ texV`, `texU + texDU ≤ 1`, `texV + texDV ≤ 1`). -/
theorem C10_subrect_in_unit_square (fsImg : Nat → Nat → Nat → Option ImageData)
    (s : VTState) (lod u v : Int) (r : TextureTile × Bool × VTState)
    (hr : r = getTile fsImg s lod u v) :
    r.1 = TextureTile.ofName 0 ∨
    ((bestMatch s (lod + (s.baseSplit : Int)).toNat u.toNat v.toNat).2
        ≤ (lod + (s.baseSplit : Int)).toNat ∧
      ∃ name, r.1 = subRect name u.toNat v.toNat
          ((lod + (s.baseSplit : Int)).toNat
            - (bestMatch s (lod + (s.baseSplit : Int)).toNat u.toNat v.toNat).2) ∧
        r.1.texDU = 1 / ((2 ^ ((lod + (s.baseSplit : Int)).toNat
            - (bestMatch s (lod + (s.baseSplit : Int)).toNat u.toNat v.toNat).2) : Nat) : ℚ) ∧
        r.1.texDV = r.1.texDU ∧
        0 ≤ r.1.texU ∧ 0 ≤ r.1.texV ∧
        r.1.texU + r.1.texDU ≤ 1 ∧ r.1.texV + r.1.texDV ≤ 1) := by
  subst hr
  by_cases hor : outOfRange s (lod + (s.baseSplit : Int)) u v
  · left
    rw [getTile_of_range fsImg s lod u v hor]
  · rw [getTile_in_range fsImg s lod u v hor]
    rcases hbm : bestMatch s (lod + (s.baseSplit : Int)).toNat u.toNat v.toNat with ⟨b, d⟩
    have hbm1 : bestMatch { s with tilesRequested := s.tilesRequested + 1 }
        (lod + (s.baseSplit : Int)).toNat u.toNat v.toNat = (b, d) := by
      rw [bestMatch_requested]
      exact hbm
    cases b with
    | none =>
      left
      rw [getTileCore_of_none fsImg _ _ _ _ (by rw [hbm1])]
    | some t =>
      rw [getTileCore_of_found fsImg _ _ _ _ d t hbm1]
      have hdL : d ≤ (lod + (s.baseSplit : Int)).toNat := by
        have hfl : findLoop
            (rootNode { s with tilesRequested := s.tilesRequested + 1 }
              (u.toNat >>> (lod + (s.baseSplit : Int)).toNat))
            (rootNode { s with tilesRequested := s.tilesRequested + 1 }
              (u.toNat >>> (lod + (s.baseSplit : Int)).toNat)).tile
            0 0 (lod + (s.baseSplit : Int)).toNat u.toNat v.toNat = (some t, d) := hbm1
        exact (findLoop_update _ _ _ _ _ t t hfl).1
      cases htex : (makeResident (loadTileTexture
          { s with tilesRequested := s.tilesRequested + 1 }.baseSplit fsImg d
          (u.toNat >>> ((lod + (s.baseSplit : Int)).toNat - d))
          (v.toNat >>> ((lod + (s.baseSplit : Int)).toNat - d))) t).1.tex with
      | none => left; simp only [htex]
      | some nm =>
        right
        simp only [htex, hbm]
        obtain ⟨e1, e2, e3, e4, e5, e6⟩ := subRect_bounds nm u.toNat v.toNat
          ((lod + (s.baseSplit : Int)).toNat - d)
        exact ⟨hdL, nm, rfl, e1, by rw [e2, e1], e3, e4, e5, e6⟩

/-- C1.  For an in-range request whose exact-address tile is absent but
where the deepest tile-carrying ancestor on the root-to-target path sits at
depth `d` (strictly above the target), the best-match walk returns that
ancestor's tile with `matchedLevel = d`; and once that tile is resident
(its texture handle is `nm`), `getTile` returns the descriptor with
`texDU = texDV = 1 / 2^lodDiff`, `texU = (u mod 2^lodDiff) * texDU`,
`texV = (v mod 2^lodDiff) * texDV`, where `lodDiff = (lod + B) - d`. -/
theorem C1_deepest_ancestor_subrect (fsImg : Nat → Nat → Nat → Option ImageData)
    (s : VTState) (lod u v : Int) (d : Nat) (t : Tile) (nm : Nat)
    (h0 : 0 ≤ lod + (s.baseSplit : Int))
    (hL : lod + (s.baseSplit : Int) < (s.nResolutionLevels : Int))
    (hu0 : 0 ≤ u) (hu : u < ((2 <<< (lod + (s.baseSplit : Int)).toNat : Nat) : Int))
    (hv0 : 0 ≤ v) (hv : v < ((1 <<< (lod + (s.baseSplit : Int)).toNat : Nat) : Int))
    (hd : d < (lod + (s.baseSplit : Int)).toNat)
    (hanc : pathTile (rootNode s (u.toNat >>> (lod + (s.baseSplit : Int)).toNat))
      (lod + (s.baseSplit : Int)).toNat u.toNat v.toNat d = some t)
    (hdeep : ∀ p, d < p → p ≤ (lod + (s.baseSplit : Int)).toNat →
      pathTile (rootNode s (u.toNat >>> (lod + (s.baseSplit : Int)).toNat))
        (lod + (s.baseSplit : Int)).toNat u.toNat v.toNat p = none)
    (hres : t.tex = some nm) :
    bestMatch s (lod + (s.baseSplit : Int)).toNat u.toNat v.toNat = (some t, d) ∧
    (getTile fsImg s lod u v).1 =
      ⟨nm,
       ((u.toNat % 2 ^ ((lod + (s.baseSplit : Int)).toNat - d) : Nat) : ℚ)
         * (1 / ((2 ^ ((lod + (s.baseSplit : Int)).toNat - d) : Nat) : ℚ)),
       ((v.toNat % 2 ^ ((lod + (s.baseSplit : Int)).toNat - d) : Nat) : ℚ)
         * (1 / ((2 ^ ((lod + (s.baseSplit : Int)).toNat - d) : Nat) : ℚ)),
       1 / ((2 ^ ((lod + (s.baseSplit : Int)).toNat - d) : Nat) : ℚ),
       1 / ((2 ^ ((lod + (s.baseSplit : Int)).toNat - d) : Nat) : ℚ)⟩ := by
  have hbm : bestMatch s (lod + (s.baseSplit : Int)).toNat u.toNat v.toNat = (some t, d) :=
    bestMatch_deepest s _ u.toNat v.toNat d t (by omega) hanc hdeep
  refine ⟨hbm, ?_⟩
  rw [getTile_in_range fsImg s lod u v (not_outOfRange_of s lod u v h0 hL hu0 hu hv0 hv)]
  have hbm1 : bestMatch { s with tilesRequested := s.tilesRequested + 1 }
      (lod + (s.baseSplit : Int)).toNat u.toNat v.toNat = (some t, d) := by
    rw [bestMatch_requested]
    exact hbm
  rw [getTileCore_of_found fsImg _ _ _ _ d t hbm1]
  have hset : ¬(t.tex = none ∧ t.loadFailed = false) := by
    rw [hres]
    simp
  rw [makeResident_of_settled _ t hset]
  simp only [hres]
  rw [subRect_eq]

/-- C4.  A tile stored by `addTileToTree` at an unoccupied valid address
`(L, u, v)` is returned by the best-match walk at that exact address with
`matchedLevel = L`; and once the tile is resident, `getTile` at the
corresponding caller-relative request returns it with the full
sub-rectangle `(0, 0, 1, 1)`. -/
theorem C4_insert_exact_match (fsImg : Nat → Nat → Nat → Option ImageData)
    (s : VTState) (t : Tile) (L un vn : Nat)
    (hu : un < 2 <<< L) (hv : vn < 1 <<< L)
    (hempty : tileAt (rootNode s (un >>> L)) L un vn = none) :
    bestMatch (addTileToTree s t L un vn) L un vn = (some t, L) ∧
    (∀ nm, t.tex = some nm → L < s.nResolutionLevels →
      (getTile fsImg (addTileToTree s t L un vn)
          ((L : Int) - (s.baseSplit : Int)) (un : Int) (vn : Int)).1
        = TextureTile.ofName nm) := by
  have hstore : tileAt (rootNode (addTileToTree s t L un vn) (un >>> L)) L un vn = some t := by
    rw [tileAt_addTileToTree_self, hempty]
    rfl
  have hbm : bestMatch (addTileToTree s t L un vn) L un vn = (some t, L) :=
    bestMatch_exact _ L un vn t hstore
  refine ⟨hbm, ?_⟩
  intro nm hres hLn
  have hbs : (addTileToTree s t L un vn).baseSplit = s.baseSplit := by
    unfold addTileToTree
    rw [setRootNode_baseSplit]
  have hnr : (addTileToTree s t L un vn).nResolutionLevels = s.nResolutionLevels := by
    unfold addTileToTree
    rw [setRootNode_nResolutionLevels]
  have hlodA : (L : Int) - (s.baseSplit : Int) + ((addTileToTree s t L un vn).baseSplit : Int)
      = (L : Int) := by
    rw [hbs]
    ring
  have htoNat : ((L : Int) - (s.baseSplit : Int)
      + ((addTileToTree s t L un vn).baseSplit : Int)).toNat = L := by
    rw [hlodA]
    exact Int.toNat_natCast L
  have hnor : ¬ outOfRange (addTileToTree s t L un vn)
      ((L : Int) - (s.baseSplit : Int) + ((addTileToTree s t L un vn).baseSplit : Int))
      (un : Int) (vn : Int) := by
    unfold outOfRange
    push_neg
    rw [htoNat, hlodA, hnr]
    refine ⟨by positivity, by exact_mod_cast hLn, by positivity, by exact_mod_cast hu,
      by positivity, by exact_mod_cast hv⟩
  rw [getTile_in_range fsImg _ _ _ _ hnor]
  rw [htoNat]
  have hbm1 : bestMatch { addTileToTree s t L un vn with
      tilesRequested := (addTileToTree s t L un vn).tilesRequested + 1 }
      L ((un : Int)).toNat ((vn : Int)).toNat = (some t, L) := by
    rw [Int.toNat_natCast, Int.toNat_natCast, bestMatch_requested]
    exact hbm
  rw [getTileCore_of_found fsImg _ _ _ _ L t hbm1]
  have hset : ¬(t.tex = none ∧ t.loadFailed = false) := by
    rw [hres]
    simp
  rw [makeResident_of_settled _ t hset]
  simp only [hres]
  rw [Nat.sub_self, subRect_zero]
  rfl

/-- Witness for C1: base split 0, a resident tile (handle 7) on the east
root, request `lod = 1, u = 2, v = 0` — served the root tile's upper-left
quarter. -/
theorem C1_deepest_ancestor_subrect_witness :
    pathTile (rootNode stA ((2 : Int).toNat >>> ((1 : Int) + ((stA.baseSplit : Nat) : Int)).toNat))
      ((1 : Int) + ((stA.baseSplit : Nat) : Int)).toNat (2 : Int).toNat (0 : Int).toNat 0
      = some tileR7 ∧
    bestMatch stA ((1 : Int) + ((stA.baseSplit : Nat) : Int)).toNat
      (2 : Int).toNat (0 : Int).toNat = (some tileR7, 0) ∧
    (getTile fsNone stA 1 2 0).1 = ⟨7, 0, 0, 1 / 2, 1 / 2⟩ := by
  have h := C1_deepest_ancestor_subrect fsNone stA 1 2 0 0 tileR7 7
    (by decide) (by decide) (by decide) (by decide) (by decide) (by decide) (by decide)
    (by decide)
    (by
      intro p h1 h2
      have h3 : p ≤ 1 := by simpa [stA] using h2
      have h4 : p = 1 := by omega
      subst h4
      decide)
    (by decide)
  refine ⟨by decide, h.1, ?_⟩
  rw [h.2]
  norm_num [stA]
  decide

/-- Witness for C4: insert a resident tile (handle 9) at absolute level 1,
`(u, v) = (3, 1)`, then request exactly that address. -/
theorem C4_insert_exact_match_witness :
    tileAt (rootNode stEmpty2 (3 >>> 1)) 1 3 1 = none ∧
    bestMatch (addTileToTree stEmpty2 tileR9 1 3 1) 1 3 1 = (some tileR9, 1) ∧
    (getTile fsNone (addTileToTree stEmpty2 tileR9 1 3 1)
        ((1 : Nat) - (stEmpty2.baseSplit : Int)) ((3 : Nat) : Int) ((1 : Nat) : Int)).1
      = TextureTile.ofName 9 := by
  have h := C4_insert_exact_match fsNone stEmpty2 tileR9 1 3 1
    (by decide) (by decide) (by decide)
  exact ⟨by decide, h.1, h.2 9 (by decide) (by decide)⟩

/-- Witness for C10 at a concrete in-range request with a resident match. -/
theorem C10_subrect_in_unit_square_witness :
    (getTile fsNone stA 1 2 0).1 = TextureTile.ofName 0 ∨
    ((bestMatch stA ((1 : Int) + ((stA.baseSplit : Nat) : Int)).toNat
        (2 : Int).toNat (0 : Int).toNat).2 ≤ ((1 : Int) + ((stA.baseSplit : Nat) : Int)).toNat ∧
      ∃ name, (getTile fsNone stA 1 2 0).1 = subRect name (2 : Int).toNat (0 : Int).toNat
          (((1 : Int) + ((stA.baseSplit : Nat) : Int)).toNat
            - (bestMatch stA ((1 : Int) + ((stA.baseSplit : Nat) : Int)).toNat
                (2 : Int).toNat (0 : Int).toNat).2) ∧
        (getTile fsNone stA 1 2 0).1.texDU
          = 1 / ((2 ^ (((1 : Int) + ((stA.baseSplit : Nat) : Int)).toNat
              - (bestMatch stA ((1 : Int) + ((stA.baseSplit : Nat) : Int)).toNat
                  (2 : Int).toNat (0 : Int).toNat).2) : Nat) : ℚ) ∧
        (getTile fsNone stA 1 2 0).1.texDV = (getTile fsNone stA 1 2 0).1.texDU ∧
        0 ≤ (getTile fsNone stA 1 2 0).1.texU ∧ 0 ≤ (getTile fsNone stA 1 2 0).1.texV ∧
        (getTile fsNone stA 1 2 0).1.texU + (getTile fsNone stA 1 2 0).1.texDU ≤ 1 ∧
        (getTile fsNone stA 1 2 0).1.texV + (getTile fsNone stA 1 2 0).1.texDV ≤ 1) :=
  C10_subrect_in_unit_square fsNone stA 1 2 0 (getTile fsNone stA 1 2 0) rfl

theorem addTileToTree_baseSplit (s : VTState) (t : Tile) (L u v : Nat) :
    (addTileToTree s t L u v).baseSplit = s.baseSplit := by
  unfold addTileToTree
  rw [setRootNode_baseSplit]

theorem scanEntry_baseSplit (s : VTState) (pfx name : List Char) (m : Nat) :
    (scanEntry s pfx name m).baseSplit = s.baseSplit := by
  unfold scanEntry
  cases scanTileName pfx name with
  | none => rfl
  | some uv =>
    rcases uv with ⟨uVal, vVal⟩
    simp only []
    split
    · rw [addTileToTree_baseSplit]
    · rfl

theorem scanDir_baseSplit (pfx : List Char) (m : Nat) : ∀ (names : List (List Char))
    (s : VTState), (scanDir s pfx names m).baseSplit = s.baseSplit := by
  intro names
  induction names with
  | nil => intro s; rfl
  | cons name rest ih =>
    intro s
    rw [scanDir, ih, scanEntry_baseSplit]

theorem scanLevels_fst_baseSplit (B : Nat) (pfx : List Char) (fs : DirFS) (s : VTState) :
    ∀ n, ((scanLevels B pfx fs s n).1).baseSplit = s.baseSplit := by
  intro n
  induction n with
  | zero => rfl
  | succ m ih =>
    rw [scanLevels]
    split
    · rw [scanDir_baseSplit, ih]
    · exact ih

/-- No directory found in the first `n` candidates: `maxLevel` stays 0. -/
theorem scanLevels_snd_none (B : Nat) (pfx : List Char) (fs : DirFS) (s : VTState) :
    ∀ n, (∀ i, i < n → fs.hasDir i = false) → (scanLevels B pfx fs s n).2 = 0 := by
  intro n
  induction n with
  | zero => intro _; rfl
  | succ m ih =>
    intro h
    rw [scanLevels]
    rw [h m (by omega)]
    simp only [Bool.false_eq_true, if_false]
    exact ih (fun i hi => h i (by omega))

/-- The last directory found wins: when `j` is the highest index with a
directory, the final `maxLevel` is `j + B`. -/
theorem scanLevels_snd_top (B : Nat) (pfx : List Char) (fs : DirFS) (s : VTState) :
    ∀ n j, j < n → fs.hasDir j = true → (∀ i, j < i → i < n → fs.hasDir i = false) →
    (scanLevels B pfx fs s n).2 = j + B := by
  intro n
  induction n with
  | zero => intro j hj _ _; omega
  | succ m ih =>
    intro j hj hdir habove
    rw [scanLevels]
    by_cases hjm : j = m
    · subst hjm
      rw [hdir]
      simp
    · rw [habove m (by omega) (by omega)]
      simp only [Bool.false_eq_true, if_false]
      exact ih j (by omega) hdir (fun i h1 h2 => habove i h1 (by omega))

/-- C2 amended.  After the catalog scan, the discovered-levels count equals
the highest absolute level at which a directory was found plus one (`1`
when no level directory exists), and `getLODCount()` returns that count
minus the base split.  In particular, for `B = 2` with directories
`level0..level2` present, `L = 5` and `getLODCount() = 3` (see the
counterexample for the spec's stated instance `L = 3`, `count = 1`). -/
theorem C2_lod_count (B T : Nat) (pfx : List Char) (fs : DirFS) :
    ((∀ i, i < MaxResolutionLevels → fs.hasDir i = false) →
      (mkVirtualTexture B T pfx fs).nResolutionLevels = 1 ∧
      getLODCount (mkVirtualTexture B T pfx fs) = 1 - (B : Int)) ∧
    (∀ j, j < MaxResolutionLevels → fs.hasDir j = true →
      (∀ i, j < i → i < MaxResolutionLevels → fs.hasDir i = false) →
      (mkVirtualTexture B T pfx fs).nResolutionLevels = (j + B) + 1 ∧
      getLODCount (mkVirtualTexture B T pfx fs) = ((j + B : Nat) : Int) + 1 - (B : Int)) := by
  have hbase : (mkVirtualTexture B T pfx fs).baseSplit = B := by
    unfold mkVirtualTexture populateTileTree
    simp only []
    rw [scanLevels_fst_baseSplit]
  constructor
  · intro hnone
    have hsnd := scanLevels_snd_none B pfx fs
      ⟨B, T, 0, TQNode.empty, TQNode.empty, 0, 0⟩ MaxResolutionLevels hnone
    have hn : (mkVirtualTexture B T pfx fs).nResolutionLevels = 1 := by
      unfold mkVirtualTexture populateTileTree
      simp only []
      rw [hsnd]
    refine ⟨hn, ?_⟩
    unfold getLODCount
    rw [hn, hbase]
    norm_num
  · intro j hj hdir habove
    have hsnd := scanLevels_snd_top B pfx fs
      ⟨B, T, 0, TQNode.empty, TQNode.empty, 0, 0⟩ MaxResolutionLevels j hj hdir habove
    have hn : (mkVirtualTexture B T pfx fs).nResolutionLevels = (j + B) + 1 := by
      unfold mkVirtualTexture populateTileTree
      simp only []
      rw [hsnd]
    refine ⟨hn, ?_⟩
    unfold getLODCount
    rw [hn, hbase]
    push_cast
    ring

/-- Witness for C2 amended: `B = 2`, directories `level0..level2`. -/
theorem C2_lod_count_witness :
    dirs012.hasDir 2 = true ∧
    (mkVirtualTexture 2 128 pfxTx dirs012).nResolutionLevels = (2 + 2) + 1 ∧
    getLODCount (mkVirtualTexture 2 128 pfxTx dirs012) = ((2 + 2 : Nat) : Int) + 1 - (2 : Int) := by
  have h := (C2_lod_count 2 128 pfxTx dirs012).2 2 (by decide) (by decide)
    (by
      intro i h1 h2
      simp only [dirs012, decide_eq_false_iff_not]
      omega)
  exact ⟨by decide, h.1, h.2⟩

/-- Counterexample to C2 as stated: for `B = 2` and on-disk level
directories 0, 1, 2 present, the code yields `L = 5` and
`getLODCount() = 3`, not the claimed `L = 3` and `getLODCount() = 1`. -/
theorem C2_counterexample :
    (mkVirtualTexture 2 128 pfxTx dirs012).nResolutionLevels = 5 ∧
    getLODCount (mkVirtualTexture 2 128 pfxTx dirs012) = 3 ∧
    ¬((mkVirtualTexture 2 128 pfxTx dirs012).nResolutionLevels = 3 ∧
      getLODCount (mkVirtualTexture 2 128 pfxTx dirs012) = 1) := by
  refine ⟨by decide, by decide, ?_⟩
  intro h
  have h1 := h.1
  rw [show (mkVirtualTexture 2 128 pfxTx dirs012).nResolutionLevels = 5 from by decide] at h1
  omega

/-- C3 failing input (code bug): with `BaseSplit = 2`, the file
`tx_0_0.dds` discovered under `level1` is inserted at absolute level
`1 + 2 = 3`, but the residency step builds the load path with level
directory `3 >> 2 = 0` — not 1 — so the tile's own file can never be
reloaded. -/
theorem C3_load_path_failing_input :
    tileAt (rootNode (mkVirtualTexture 2 128 pfxTx dirOne00) (0 >>> 3)) 3 0 0
      = some Tile.fresh ∧
    loadDirLevel (mkVirtualTexture 2 128 pfxTx dirOne00).baseSplit 3 = 0 ∧
    (0 : Nat) ≠ 1 := by
  refine ⟨by decide, by decide, by decide⟩

/-- C7 amended.  `addTileToTree` at absolute level `L` attaches the tile at
depth `L` below the selected root — not `L - B` — and leaves every other
in-range address unchanged. -/
theorem C7_insert_depth (s : VTState) (t : Tile) (L u v : Nat)
    (hu : u < 2 <<< L) (hv : v < 1 <<< L) :
    (tileAt (rootNode (addTileToTree s t L u v) (u >>> L)) L u v).isSome ∧
    (∀ e u2 v2, u2 < 2 <<< e → v2 < 1 <<< e → ¬(e = L ∧ u2 = u ∧ v2 = v) →
      tileAt (rootNode (addTileToTree s t L u v) (u2 >>> e)) e u2 v2
        = tileAt (rootNode s (u2 >>> e)) e u2 v2) := by
  constructor
  · rw [tileAt_addTileToTree_self]
    rfl
  · intro e u2 v2 h1 h2 h3
    exact tileAt_addTileToTree_frame s t L u v e u2 v2 hu hv h1 h2 h3

/-- Witness for C7 amended at a concrete insertion. -/
theorem C7_insert_depth_witness :
    (3 < 2 <<< 1) ∧
    (tileAt (rootNode (addTileToTree stEmpty2 tileR9 1 3 1) (3 >>> 1)) 1 3 1).isSome := by
  exact ⟨by decide, (C7_insert_depth stEmpty2 tileR9 1 3 1 (by decide) (by decide)).1⟩

/-- Counterexample to C7 as stated: with `B = 1`, the tile discovered under
`level0` (absolute level `ℓ = 1`) is attached at depth 1 below the west
root, while the node at depth `ℓ - B = 0` (the root itself) carries no
tile. -/
theorem C7_counterexample :
    (mkVirtualTexture 1 128 pfxTx dirZero00).tileTree0.tile = none ∧
    tileAt (mkVirtualTexture 1 128 pfxTx dirZero00).tileTree0 1 0 0 = some Tile.fresh := by
  exact ⟨by decide, by decide⟩

/-- One directory entry inserts a tile exactly at the address its filename
scans to, when in range; everything else is untouched. -/
theorem scanEntry_iff (pfx : List Char) (m u v : Nat) (hu : u < 2 <<< m)
    (hv : v < 1 <<< m) (s : VTState) (name : List Char) :
    ((tileAt (rootNode (scanEntry s pfx name m) (u >>> m)) m u v).isSome = true ↔
      ((tileAt (rootNode s (u >>> m)) m u v).isSome = true ∨
        scanTileName pfx name = some ((u : Int), (v : Int)))) := by
  unfold scanEntry
  cases hscan : scanTileName pfx name with
  | none => simp
  | some uv =>
    rcases uv with ⟨uVal, vVal⟩
    simp only []
    split
    · rename_i hbounds
      obtain ⟨hb1, hb2, hb3, hb4⟩ := hbounds
      by_cases haddr : uVal.toNat = u ∧ vVal.toNat = v
      · rw [haddr.1, haddr.2, tileAt_addTileToTree_self]
        have huval : uVal = (u : Int) := by omega
        have hvval : vVal = (v : Int) := by omega
        simp [huval, hvval]
      · have hu2 : uVal.toNat < 2 <<< m := by omega
        have hv2 : vVal.toNat < 1 <<< m := by omega
        rw [tileAt_addTileToTree_frame s Tile.fresh m uVal.toNat vVal.toNat m u v
          hu2 hv2 hu hv (by intro hcc; exact haddr ⟨hcc.2.1.symm, hcc.2.2.symm⟩)]
        have hne : ¬((uVal, vVal) = ((u : Int), (v : Int))) := by
          intro heq
          injection heq with hequ heqv
          exact haddr ⟨by omega, by omega⟩
        simp only [Option.some.injEq]
        constructor
        · intro h
          exact Or.inl h
        · intro h
          cases h with
          | inl h => exact h
          | inr h => exact absurd h hne
    · rename_i hbounds
      have hne : ¬((uVal, vVal) = ((u : Int), (v : Int))) := by
        intro heq
        injection heq with hequ heqv
        apply hbounds
        subst hequ
        subst heqv
        refine ⟨by positivity, by positivity, by exact_mod_cast hu, by exact_mod_cast hv⟩
      simp only [Option.some.injEq]
      constructor
      · intro h
        exact Or.inl h
      · intro h
        cases h with
        | inl h => exact h
        | inr h => exact absurd h hne

/-- C9 amended.  (1) For every in-range address `(m, u, v)`, the catalog
scan of one level directory indexes a tile there exactly when the initial
tree already had one or some directory entry's filename scans — under the
`sscanf` pattern `<prefix>%d_%d.`, i.e. prefix, integer, underscore,
integer, with the trailing dot and suffix not required to match — to
exactly `(u, v)`; malformed filenames and out-of-range coordinates insert
nothing.  (2) If the configured prefix contains `%`, the scan inserts
nothing at all. -/
theorem C9_scan_characterization (pfx : List Char) :
    (∀ m u v, u < 2 <<< m → v < 1 <<< m → ∀ names s,
      ((tileAt (rootNode (scanDir s pfx names m) (u >>> m)) m u v).isSome = true ↔
        ((tileAt (rootNode s (u >>> m)) m u v).isSome = true ∨
          ∃ name ∈ names, scanTileName pfx name = some ((u : Int), (v : Int))))) ∧
    (pfx.contains '%' = true → ∀ names s m, scanDir s pfx names m = s) := by
  constructor
  · intro m u v hu hv names
    induction names with
    | nil =>
      intro s
      simp [scanDir]
    | cons name rest ih =>
      intro s
      rw [scanDir]
      rw [ih (scanEntry s pfx name m)]
      rw [scanEntry_iff pfx m u v hu hv s name]
      constructor
      · intro h
        rcases h with (h | h) | h
        · exact Or.inl h
        · exact Or.inr ⟨name, List.mem_cons_self name rest, h⟩
        · obtain ⟨nm2, hmem, hsc⟩ := h
          exact Or.inr ⟨nm2, List.mem_cons_of_mem name hmem, hsc⟩
      · intro h
        rcases h with h | ⟨nm2, hmem, hsc⟩
        · exact Or.inl (Or.inl h)
        · rcases List.mem_cons.mp hmem with rfl | hmem2
          · exact Or.inl (Or.inr hsc)
          · exact Or.inr ⟨nm2, hmem2, hsc⟩
  · intro hpct names
    induction names with
    | nil => intro s m; rfl
    | cons name rest ih =>
      intro s m
      rw [scanDir]
      have hnone : scanTileName pfx name = none := by
        unfold scanTileName
        rw [if_pos hpct]
      have hentry : scanEntry s pfx name m = s := by
        unfold scanEntry
        rw [hnone]
      rw [hentry]
      exact ih s m

/-- Witness for C9 amended: scanning `tx_7_3.dds` under bounds for absolute
level 1 indexes exactly `(7, 3)`. -/
theorem C9_scan_characterization_witness :
    (7 < 2 <<< 3) ∧
    ((tileAt (rootNode (scanDir stEmpty2 pfxTx ["tx_7_3.dds".toList] 3) (7 >>> 3)) 3 7 3).isSome
        = true ↔
      ((tileAt (rootNode stEmpty2 (7 >>> 3)) 3 7 3).isSome = true ∨
        ∃ name ∈ ["tx_7_3.dds".toList],
          scanTileName pfxTx name = some (((7 : Nat) : Int), ((3 : Nat) : Int)))) := by
  exact ⟨by decide,
    (C9_scan_characterization pfxTx).1 3 7 3 (by decide) (by decide)
      ["tx_7_3.dds".toList] stEmpty2⟩

/-- Counterexample to C9 as stated: the extension-less filename `tx_1_0`
does not have the literal shape `<prefix><u>_<v>.<suffix>` (it contains no
dot), yet the scan inserts a tile for it — `sscanf` returns 2 before the
trailing `.` of the pattern is ever matched. -/
theorem C9_counterexample :
    (mkVirtualTexture 0 128 pfxTx dirZeroNoDot).tileTree1.tile = some Tile.fresh ∧
    ¬ ∃ uN vN, specShapeName pfxTx ("tx_1_0".toList) uN vN := by
  constructor
  · decide
  · rintro ⟨uN, vN, uds, vds, sfx, hud, hvd, hudig, hvdig, heq, hu2, hv2⟩
    have hmem : '.' ∈ ("tx_1_0".toList) := by
      rw [heq]
      simp [List.mem_append, pfxTx]
    exact absurd hmem (by decide)

/-- C8.  The factory returns null exactly when a configuration check
fails — `ImageDirectory` missing; `BaseSplit` missing, negative, or
non-integral; `TileSize` missing, non-integral, below 64, or not a power
of two — and any configuration passing all checks yields a manager whose
tile type defaults to `"dds"` and tile prefix to `"tx_"` when absent. -/
theorem C8_factory_checks (p : TexParams) (path : String) (isRel : String → Bool)
    (joinPath : String → String → String) :
    (createVirtualTexture p path isRel joinPath = none ↔
      (p.imageDirectory = none ∨
        p.baseSplitVal = none ∨
        (∃ bs, p.baseSplitVal = some bs ∧ (bs < 0 ∨ bs ≠ (bs.floor : ℚ))) ∨
        p.tileSizeVal = none ∨
        (∃ ts, p.tileSizeVal = some ts ∧
          (ts ≠ (ts.floor : ℚ) ∨ ts < 64 ∨ isPow2 ts.floor.toNat = false)))) ∧
    (∀ cfg, createVirtualTexture p path isRel joinPath = some cfg →
      cfg.tileType = p.tileTypeVal.getD "dds" ∧
      cfg.tilePfx = p.tilePfxVal.getD "tx_" ∧
      ∃ bs ts, p.baseSplitVal = some bs ∧ p.tileSizeVal = some ts ∧
        ¬(bs < 0 ∨ bs ≠ (bs.floor : ℚ)) ∧ cfg.baseSplit = bs.floor.toNat ∧
        ¬(ts ≠ (ts.floor : ℚ) ∨ ts < 64 ∨ isPow2 ts.floor.toNat = false) ∧
        cfg.tileSize = ts.floor.toNat) := by
  have hA : p.imageDirectory = none → createVirtualTexture p path isRel joinPath = none := by
    intro h
    unfold createVirtualTexture
    simp only [h]
  have hB : ∀ dir, p.imageDirectory = some dir → p.baseSplitVal = none →
      createVirtualTexture p path isRel joinPath = none := by
    intro dir h1 h2
    unfold createVirtualTexture
    simp only [h1, h2]
  have hC : ∀ dir bs, p.imageDirectory = some dir → p.baseSplitVal = some bs →
      (bs < 0 ∨ bs ≠ (bs.floor : ℚ)) →
      createVirtualTexture p path isRel joinPath = none := by
    intro dir bs h1 h2 h3
    unfold createVirtualTexture
    simp only [h1, h2]
    rw [if_pos h3]
  have hD : ∀ dir bs, p.imageDirectory = some dir → p.baseSplitVal = some bs →
      ¬(bs < 0 ∨ bs ≠ (bs.floor : ℚ)) → p.tileSizeVal = none →
      createVirtualTexture p path isRel joinPath = none := by
    intro dir bs h1 h2 h3 h4
    unfold createVirtualTexture
    simp only [h1, h2, h4]
    rw [if_neg h3]
  have hE : ∀ dir bs ts, p.imageDirectory = some dir → p.baseSplitVal = some bs →
      ¬(bs < 0 ∨ bs ≠ (bs.floor : ℚ)) → p.tileSizeVal = some ts →
      (ts ≠ (ts.floor : ℚ) ∨ ts < 64 ∨ ¬(isPow2 ts.floor.toNat = true)) →
      createVirtualTexture p path isRel joinPath = none := by
    intro dir bs ts h1 h2 h3 h4 h5
    unfold createVirtualTexture
    simp only [h1, h2, h4]
    rw [if_neg h3, if_pos h5]
  have hF : ∀ dir bs ts, p.imageDirectory = some dir → p.baseSplitVal = some bs →
      ¬(bs < 0 ∨ bs ≠ (bs.floor : ℚ)) → p.tileSizeVal = some ts →
      ¬(ts ≠ (ts.floor : ℚ) ∨ ts < 64 ∨ ¬(isPow2 ts.floor.toNat = true)) →
      createVirtualTexture p path isRel joinPath =
        some ⟨(if isRel dir then joinPath path dir else dir), bs.floor.toNat, ts.floor.toNat,
              p.tilePfxVal.getD "tx_", p.tileTypeVal.getD "dds"⟩ := by
    intro dir bs ts h1 h2 h3 h4 h5
    unfold createVirtualTexture
    simp only [h1, h2, h4]
    rw [if_neg h3, if_neg h5]
  have hbool : ∀ b : Bool, (¬(b = true)) ↔ b = false := by
    intro b
    cases b <;> simp
  constructor
  · constructor
    · intro hnone
      rcases himg : p.imageDirectory with _ | dir
      · exact Or.inl rfl
      · rcases hbs : p.baseSplitVal with _ | bs
        · exact Or.inr (Or.inl rfl)
        · by_cases hbsbad : bs < 0 ∨ bs ≠ (bs.floor : ℚ)
          · exact Or.inr (Or.inr (Or.inl ⟨bs, rfl, hbsbad⟩))
          · rcases hts : p.tileSizeVal with _ | ts
            · exact Or.inr (Or.inr (Or.inr (Or.inl rfl)))
            · by_cases htsbad : ts ≠ (ts.floor : ℚ) ∨ ts < 64 ∨ ¬(isPow2 ts.floor.toNat = true)
              · refine Or.inr (Or.inr (Or.inr (Or.inr ⟨ts, rfl, ?_⟩)))
                rcases htsbad with h | h | h
                · exact Or.inl h
                · exact Or.inr (Or.inl h)
                · exact Or.inr (Or.inr ((hbool _).mp h))
              · rw [hF dir bs ts himg hbs hbsbad hts htsbad] at hnone
                exact absurd hnone (by simp)
    · intro h
      rcases h with h | h | ⟨bs, hbs, hbad⟩ | h | ⟨ts, hts, hbad⟩
      · exact hA h
      · rcases himg : p.imageDirectory with _ | dir
        · exact hA himg
        · exact hB dir himg h
      · rcases himg : p.imageDirectory with _ | dir
        · exact hA himg
        · exact hC dir bs himg hbs hbad
      · rcases himg : p.imageDirectory with _ | dir
        · exact hA himg
        · rcases hbs : p.baseSplitVal with _ | bs
          · exact hB dir himg hbs
          · by_cases hbsbad : bs < 0 ∨ bs ≠ (bs.floor : ℚ)
            · exact hC dir bs himg hbs hbsbad
            · exact hD dir bs himg hbs hbsbad h
      · rcases himg : p.imageDirectory with _ | dir
        · exact hA himg
        · rcases hbs : p.baseSplitVal with _ | bs
          · exact hB dir himg hbs
          · by_cases hbsbad : bs < 0 ∨ bs ≠ (bs.floor : ℚ)
            · exact hC dir bs himg hbs hbsbad
            · refine hE dir bs ts himg hbs hbsbad hts ?_
              rcases hbad with h | h | h
              · exact Or.inl h
              · exact Or.inr (Or.inl h)
              · exact Or.inr (Or.inr ((hbool _).mpr h))
  · intro cfg hcfg
    rcases himg : p.imageDirectory with _ | dir
    · rw [hA himg] at hcfg
      exact absurd hcfg (by simp)
    · rcases hbs : p.baseSplitVal with _ | bs
      · rw [hB dir himg hbs] at hcfg
        exact absurd hcfg (by simp)
      · by_cases hbsbad : bs < 0 ∨ bs ≠ (bs.floor : ℚ)
        · rw [hC dir bs himg hbs hbsbad] at hcfg
          exact absurd hcfg (by simp)
        · rcases hts : p.tileSizeVal with _ | ts
          · rw [hD dir bs himg hbs hbsbad hts] at hcfg
            exact absurd hcfg (by simp)
          · by_cases htsbad : ts ≠ (ts.floor : ℚ) ∨ ts < 64 ∨ ¬(isPow2 ts.floor.toNat = true)
            · rw [hE dir bs ts himg hbs hbsbad hts htsbad] at hcfg
              exact absurd hcfg (by simp)
            · rw [hF dir bs ts himg hbs hbsbad hts htsbad] at hcfg
              injection hcfg with hcfg2
              subst hcfg2
              refine ⟨rfl, rfl, bs, ts, rfl, rfl, hbsbad, rfl, ?_, rfl⟩
              intro hcon
              apply htsbad
              rcases hcon with h | h | h
              · exact Or.inl h
              · exact Or.inr (Or.inl h)
              · exact Or.inr (Or.inr ((hbool _).mpr h))

/-- Witness for C8 at a fully valid configuration relying on both
defaults. -/
theorem C8_factory_checks_witness :
    createVirtualTexture ⟨some "mars", some 2, some 128, none, none⟩ "tex" (fun _ => false)
        (fun a b => a ++ b) = some ⟨"mars", 2, 128, "tx_", "dds"⟩ ∧
    (⟨"mars", 2, 128, "tx_", "dds"⟩ : VTConfig).tileType
      = (⟨some "mars", some 2, some 128, none, none⟩ : TexParams).tileTypeVal.getD "dds" ∧
    (⟨"mars", 2, 128, "tx_", "dds"⟩ : VTConfig).tilePfx
      = (⟨some "mars", some 2, some 128, none, none⟩ : TexParams).tilePfxVal.getD "tx_" := by
  refine ⟨by decide, ?_, ?_⟩
  · exact ((C8_factory_checks ⟨some "mars", some 2, some 128, none, none⟩ "tex"
      (fun _ => false) (fun a b => a ++ b)).2 ⟨"mars", 2, 128, "tx_", "dds"⟩ (by decide)).1
  · exact ((C8_factory_checks ⟨some "mars", some 2, some 128, none, none⟩ "tex"
      (fun _ => false) (fun a b => a ++ b)).2 ⟨"mars", 2, 128, "tx_", "dds"⟩ (by decide)).2.1

/-- Re-running the core on the state left by a successful walk: the matched
tile is already settled, so no decode is attempted and the same descriptor
is produced. -/
theorem getTileCore_second (fs1 fs2 : Nat → Nat → Nat → Option ImageData) (s1 : VTState)
    (L un vn d : Nat) (t : Tile) (hbm : bestMatch s1 L un vn = (some t, d)) :
    ∀ sA, sA = setRootNode s1 (un >>> L)
        (updateTileAt (rootNode s1 (un >>> L)) d (un >>> (L - d)) (vn >>> (L - d))
          (makeResident (loadTileTexture s1.baseSplit fs1 d (un >>> (L - d))
            (vn >>> (L - d))) t).1) →
      (getTileCore fs2 { sA with tilesRequested := sA.tilesRequested + 1 } L un vn).1
        = (getTileCore fs1 s1 L un vn).1 ∧
      (getTileCore fs2 { sA with tilesRequested := sA.tilesRequested + 1 } L un vn).2.1
        = false := by
  intro sA hsA
  have hfb1 : findLoop (rootNode s1 (un >>> L)) (rootNode s1 (un >>> L)).tile 0 0 L un vn
      = (some t, d) := hbm
  have hupd := (findLoop_update (rootNode s1 (un >>> L)) L un vn d t
    (makeResident (loadTileTexture s1.baseSplit fs1 d (un >>> (L - d))
      (vn >>> (L - d))) t).1 hfb1).2.2
  have hbmA : bestMatch { sA with tilesRequested := sA.tilesRequested + 1 } L un vn
      = (some (makeResident (loadTileTexture s1.baseSplit fs1 d (un >>> (L - d))
          (vn >>> (L - d))) t).1, d) := by
    rw [bestMatch_requested, hsA]
    unfold bestMatch
    rw [rootNode_setRootNode_same]
    exact hupd
  rw [getTileCore_of_found fs2 _ L un vn d _ hbmA]
  rw [getTileCore_of_found fs1 s1 L un vn d t hbm]
  rw [makeResident_of_settled _ _ (makeResident_settled _ t)]
  exact ⟨rfl, rfl⟩

/-- C6.  A tile record transitions at most once out of the empty state:
`makeResident` never attempts a decode on a tile that is already loaded or
already failed, and after any `makeResident` call the tile is settled, so
a second residency call is a no-op.  Consequently a repeated `getTile`
request for the same address (under any decode collaborator) attempts no
decode and returns the same descriptor as the first request, and a failed
tile (sticky flag set, buffer absent) yields the empty sentinel. -/
theorem C6_residency_once (s : VTState) :
    (∀ load t, ¬(t.tex = none ∧ t.loadFailed = false) → makeResident load t = (t, false)) ∧
    (∀ load1 load2 t,
      makeResident load2 (makeResident load1 t).1 = ((makeResident load1 t).1, false)) ∧
    (∀ fs1 fs2 lod u v,
      (getTile fs2 (getTile fs1 s lod u v).2.2 lod u v).2.1 = false ∧
      (getTile fs2 (getTile fs1 s lod u v).2.2 lod u v).1 = (getTile fs1 s lod u v).1) ∧
    (∀ fsImg lod u v d t,
      bestMatch s (lod + (s.baseSplit : Int)).toNat u.toNat v.toNat = (some t, d) →
      t.tex = none → t.loadFailed = true →
      (getTile fsImg s lod u v).1 = TextureTile.ofName 0) := by
  refine ⟨makeResident_of_settled,
    fun load1 load2 t => makeResident_of_settled load2 _ (makeResident_settled load1 t),
    ?_, ?_⟩
  · intro fs1 fs2 lod u v
    by_cases hor : outOfRange s (lod + (s.baseSplit : Int)) u v
    · rw [getTile_of_range fs1 s lod u v hor]
      rw [getTile_of_range fs2 { s with tilesRequested := s.tilesRequested + 1 } lod u v hor]
      exact ⟨rfl, rfl⟩
    · rw [getTile_in_range fs1 s lod u v hor]
      rcases hbm : bestMatch { s with tilesRequested := s.tilesRequested + 1 }
        (lod + (s.baseSplit : Int)).toNat u.toNat v.toNat with ⟨b, d⟩
      cases b with
      | none =>
        rw [getTileCore_of_none fs1 _ _ _ _ (by rw [hbm])]
        rw [getTile_in_range fs2 { s with tilesRequested := s.tilesRequested + 1 } lod u v hor]
        rw [getTileCore_of_none fs2 _ _ _ _ (by rw [bestMatch_requested]; rw [hbm])]
        exact ⟨rfl, rfl⟩
      | some t =>
        rcases hcore : getTileCore fs1 { s with tilesRequested := s.tilesRequested + 1 }
          (lod + (s.baseSplit : Int)).toNat u.toNat v.toNat with ⟨dsc1, att1, sA1⟩
        have hof := getTileCore_of_found fs1 _ _ _ _ d t hbm
        rw [hcore] at hof
        have hsA1 : sA1 = setRootNode { s with tilesRequested := s.tilesRequested + 1 }
            (u.toNat >>> (lod + (s.baseSplit : Int)).toNat)
            (updateTileAt (rootNode { s with tilesRequested := s.tilesRequested + 1 }
                (u.toNat >>> (lod + (s.baseSplit : Int)).toNat)) d
              (u.toNat >>> ((lod + (s.baseSplit : Int)).toNat - d))
              (v.toNat >>> ((lod + (s.baseSplit : Int)).toNat - d))
              (makeResident (loadTileTexture
                ({ s with tilesRequested := s.tilesRequested + 1 }).baseSplit fs1 d
                (u.toNat >>> ((lod + (s.baseSplit : Int)).toNat - d))
                (v.toNat >>> ((lod + (s.baseSplit : Int)).toNat - d))) t).1) := by
          have := congrArg (fun r => r.2.2) hof
          simpa using this
        have hbs1 : sA1.baseSplit = s.baseSplit := by
          rw [hsA1, setRootNode_baseSplit]
        have hnr1 : sA1.nResolutionLevels = s.nResolutionLevels := by
          rw [hsA1, setRootNode_nResolutionLevels]
        have hor2 : ¬ outOfRange sA1 (lod + (sA1.baseSplit : Int)) u v := by
          rw [hbs1, outOfRange_congr s sA1 hnr1]
          exact hor
        simp only [hcore]
        rw [getTile_in_range fs2 sA1 lod u v hor2]
        rw [show (lod + (sA1.baseSplit : Int)).toNat = (lod + (s.baseSplit : Int)).toNat from
          by rw [hbs1]]
        have hsecond := getTileCore_second fs1 fs2
          { s with tilesRequested := s.tilesRequested + 1 }
          (lod + (s.baseSplit : Int)).toNat u.toNat v.toNat d t hbm sA1 hsA1
        rw [hcore] at hsecond
        exact ⟨hsecond.2, hsecond.1⟩
  · intro fsImg lod u v d t hbm htex hfail
    by_cases hor : outOfRange s (lod + (s.baseSplit : Int)) u v
    · rw [getTile_of_range fsImg s lod u v hor]
    · rw [getTile_in_range fsImg s lod u v hor]
      have hbm1 : bestMatch { s with tilesRequested := s.tilesRequested + 1 }
          (lod + (s.baseSplit : Int)).toNat u.toNat v.toNat = (some t, d) := by
        rw [bestMatch_requested]
        exact hbm
      rw [getTileCore_of_found fsImg _ _ _ _ d t hbm1]
      rw [makeResident_of_settled _ t (by rw [hfail]; simp)]
      simp only [htex]

/-- Witness for C6: a loaded tile is returned unchanged with no decode
attempt, and a repeated request is idempotent. -/
theorem C6_residency_once_witness :
    ¬(tileR7.tex = none ∧ tileR7.loadFailed = false) ∧
    makeResident (some 5) tileR7 = (tileR7, false) ∧
    (getTile fsNone (getTile fsNone stA 1 2 0).2.2 1 2 0).2.1 = false := by
  refine ⟨by decide, (C6_residency_once stA).1 (some 5) tileR7 (by decide), ?_⟩
  exact ((C6_residency_once stA).2.2.1 fsNone fsNone 1 2 0).1

end VirtualTex
